import Mathlib

/-! Linus-Neural character drivers: a shallow embedding.

The three simulated drivers (`src/drivers/eyes_driver.c`,
`src/drivers/neural_driver.c`, `src/linux/arm64/drivers/touchscreen.c`)
are embedded as pure functions over explicit driver state.

Conventions
* a C `char` is a `Char` whose code is the byte value; a C string is the
  `List Char` of the bytes before its terminating NUL;
* `get_random_bytes`, `ktime_get`, allocation failure and user-copy faults
  are explicit arguments of the function that consumes them;
* a call returns its C return value (an `Int`) paired with the new state.
-/

namespace LinusNeural

/-! ## Kernel constants and primitives used by the drivers -/

/-- Linux errno `EBUSY`. -/
def EBUSY : Int := 16
/-- Linux errno `EINVAL`. -/
def EINVAL : Int := 22
/-- Linux errno `EFAULT`. -/
def EFAULT : Int := 14
/-- Linux errno `ENOMEM`. -/
def ENOMEM : Int := 12

/-- A kernel mutex: `true` when held. -/
abbrev kmutex := Bool

/-- `mutex_trylock`: returns 1 and takes the mutex when it is free,
returns 0 and changes nothing when it is held. -/
def mutex_trylock (m : kmutex) : Nat × kmutex :=
  if m then (0, m) else (1, true)

/-- `mutex_unlock`: the mutex becomes free. -/
def mutex_unlock (_m : kmutex) : kmutex := false

/-! ## Driver state -/

/-- The file-scope variables of `eyes_driver.c`. -/
structure eyes_state where
  eyes_mutex : kmutex
  sample_interval_ms : Nat
  simulate_blink : Bool
  eyes_buffer : List Char
deriving DecidableEq

/-- State of the eyes driver once the module is loaded:
`sample_interval_ms = 100`, `simulate_blink = true`, mutex free. -/
def eyes_loaded : eyes_state := ⟨false, 100, true, []⟩

/-- The file-scope variables of `neural_driver.c`. -/
structure neural_state where
  neural_mutex : kmutex
  neural_buffer : List Char
deriving DecidableEq

/-- State of the neural driver once the module is loaded. -/
def neural_loaded : neural_state := ⟨false, "Neural driver ativo.\n".toList⟩

/-! ## open / release -/

/-- `eyes_open`: `-EBUSY` when `mutex_trylock` fails, otherwise 0. -/
def eyes_open (st : eyes_state) : Int × eyes_state :=
  let r := mutex_trylock st.eyes_mutex
  if r.1 = 0 then (-EBUSY, st)
  else (0, ⟨r.2, st.sample_interval_ms, st.simulate_blink, st.eyes_buffer⟩)

/-- `eyes_release`: unlocks the mutex and returns 0. -/
def eyes_release (st : eyes_state) : Int × eyes_state :=
  (0, ⟨mutex_unlock st.eyes_mutex, st.sample_interval_ms, st.simulate_blink, st.eyes_buffer⟩)

/-- `neural_open`: `-EBUSY` when `mutex_trylock` fails, otherwise 0. -/
def neural_open (st : neural_state) : Int × neural_state :=
  let r := mutex_trylock st.neural_mutex
  if r.1 = 0 then (-EBUSY, st)
  else (0, ⟨r.2, st.neural_buffer⟩)

/-- `neural_release`: unlocks the mutex and returns 0. -/
def neural_release (st : neural_state) : Int × neural_state :=
  (0, ⟨mutex_unlock st.neural_mutex, st.neural_buffer⟩)

/-! ## Traces of open / release calls -/

/-- One file operation on the device node, tagged with the caller issuing it. -/
inductive fop where
  | fopen (caller : Nat)
  | frelease (caller : Nat)
deriving DecidableEq

/-- Eyes driver state together with the callers whose `open` returned 0 and
who have not called `release` since (the open sessions). -/
structure eyes_world where
  st : eyes_state
  sessions : List Nat
deriving DecidableEq

/-- Run one file operation against the eyes driver. -/
def eyes_step (w : eyes_world) : fop → eyes_world
  | fop.fopen c =>
    let r := eyes_open w.st
    if r.1 = 0 then ⟨r.2, c :: w.sessions⟩ else ⟨r.2, w.sessions⟩
  | fop.frelease c => ⟨(eyes_release w.st).2, w.sessions.erase c⟩

/-- Run a sequence of file operations against the eyes driver. -/
def eyes_run (w : eyes_world) (ops : List fop) : eyes_world :=
  ops.foldl eyes_step w

/-- A trace is well formed when every `release` is issued by a caller that
currently has an open session. -/
def eyes_wf (w : eyes_world) : List fop → Bool
  | [] => true
  | fop.fopen c :: ops => eyes_wf (eyes_step w (fop.fopen c)) ops
  | fop.frelease c :: ops =>
    decide (c ∈ w.sessions) && eyes_wf (eyes_step w (fop.frelease c)) ops

/-- Neural driver state together with its open sessions. -/
structure neural_world where
  st : neural_state
  sessions : List Nat
deriving DecidableEq

/-- Run one file operation against the neural driver. -/
def neural_step (w : neural_world) : fop → neural_world
  | fop.fopen c =>
    let r := neural_open w.st
    if r.1 = 0 then ⟨r.2, c :: w.sessions⟩ else ⟨r.2, w.sessions⟩
  | fop.frelease c => ⟨(neural_release w.st).2, w.sessions.erase c⟩

/-- Run a sequence of file operations against the neural driver. -/
def neural_run (w : neural_world) (ops : List fop) : neural_world :=
  ops.foldl neural_step w

/-- Well-formed traces for the neural driver. -/
def neural_wf (w : neural_world) : List fop → Bool
  | [] => true
  | fop.fopen c :: ops => neural_wf (neural_step w (fop.fopen c)) ops
  | fop.frelease c :: ops =>
    decide (c ∈ w.sessions) && neural_wf (neural_step w (fop.frelease c)) ops

/-- The session-lock invariant: at most one open session, and the mutex is
held exactly when there is one. -/
def lock_inv (locked : Bool) (sessions : List Nat) : Prop :=
  sessions.length ≤ 1 ∧ (locked = true ↔ sessions.length = 1)

/-! ## Sample generators -/

/-- C's `%` on `int`: the remainder of truncating division. -/
def c_rem (a b : Int) : Int := Int.tmod a b

/-- The value `neural_read` passes to `%d`: `(noise % 200) - 100`,
`noise` being the `int` filled by `get_random_bytes`. -/
def neural_microvolts (noise : Int) : Int := c_rem noise 200 - 100

/-- Store into a `uint16_t` field. -/
def to_u16 (v : Nat) : Nat := v % 65536

/-- `struct eyes_sample`: `x`, `y`, `lux` are `uint16_t`, `ts` is the
`ktime_t` (signed 64-bit nanoseconds). -/
structure eyes_sample where
  x : Nat
  y : Nat
  lux : Nat
  blink : Bool
  ts : Int
deriving DecidableEq

/-- `generate_sample`: `rnd` is the first `uint32_t` drawn, `rnd2` the one
drawn for the blink decision (used only when `simulate_blink` is set), `now`
the value of `ktime_get()`. -/
def generate_sample (simulate_blink : Bool) (rnd rnd2 : Nat) (now : Int) : eyes_sample :=
  ⟨to_u16 (rnd % 1921),
   to_u16 ((rnd >>> 16) % 1081),
   to_u16 (rnd % 10001),
   if simulate_blink then decide (rnd2 % 100 < 5) else false,
   now⟩

/-- Smallest `int`. -/
def INT_MIN : Int := -2147483648
/-- Largest `int`. -/
def INT_MAX : Int := 2147483647

/-- Reduce a mathematical integer to the `int` it is stored as
(two's complement, the kernel is built with wrapping signed arithmetic). -/
def wrap_int (v : Int) : Int := (v + 2147483648) % 4294967296 - 2147483648

/-- The negation inside `abs(v)` leaves the range of `int`. -/
def abs_overflows (v : Int) : Bool := decide (v < 0 ∧ INT_MAX < -v)

/-- The kernel's `abs()` on an `int`: `v < 0 ? -v : v`. -/
def kabs (v : Int) : Int := if v < 0 then wrap_int (-v) else v

/-- The fields of `struct ln_touchscreen` that `ln_touch_event` writes. -/
structure ln_touchscreen where
  active : Bool
  x : Int
  y : Int
  pressure : Int
deriving DecidableEq

/-- Event code `ABS_MT_POSITION_X`. -/
def ABS_MT_POSITION_X : Nat := 0x35
/-- Event code `ABS_MT_POSITION_Y`. -/
def ABS_MT_POSITION_Y : Nat := 0x36
/-- Event code `ABS_MT_PRESSURE`. -/
def ABS_MT_PRESSURE : Nat := 0x3a

/-- `ln_touch_event`: the timer callback. The three `int`s are the words
drawn by `get_random_bytes`; the result is the updated device structure and
the `input_report_abs` calls made, in order, as (code, value) pairs. -/
def ln_touch_event (ts : ln_touchscreen) (new_x new_y new_pressure : Int) :
    ln_touchscreen × List (Nat × Int) :=
  let x := kabs (c_rem new_x 1080)
  let y := kabs (c_rem new_y 2400)
  let pressure := kabs (c_rem new_pressure 100)
  (⟨ts.active, x, y, pressure⟩,
   [(ABS_MT_POSITION_X, x), (ABS_MT_POSITION_Y, y), (ABS_MT_PRESSURE, pressure)])

/-- A value is representable as a 32-bit `int`. -/
abbrev is_int32 (v : Int) : Prop := INT_MIN ≤ v ∧ v ≤ INT_MAX

/-- A value is representable as a `uint32_t`. -/
abbrev is_u32 (v : Nat) : Prop := v < 4294967296

/-! ## Formatting and user copies -/

/-- The NUL byte that terminates a C string. -/
def NUL : Char := Char.ofNat 0

/-- The C string held in a region of memory: its bytes up to the first NUL. -/
def cstr (mem : List Char) : List Char := mem.takeWhile (fun c => c != NUL)

/-- `strlen` of a C string. -/
def strlen (s : List Char) : Nat := s.length

/-- Conversions `%u` and `%llu`: unsigned decimal. -/
def fmt_u (n : Nat) : List Char := Nat.toDigits 10 n

/-- Conversion `%d`: signed decimal. -/
def fmt_d (v : Int) : List Char :=
  if v < 0 then '-' :: Nat.toDigits 10 v.natAbs else Nat.toDigits 10 v.toNat

/-- `snprintf(buf, size, ...)`: of the formatted text `out`, the C string left
in `buf` is the first `size - 1` bytes. -/
def snprintf (size : Nat) (out : List Char) : List Char := out.take (size - 1)

/-- `copy_to_user(to, from, n)`. `umem` is user memory from address `to`
onwards, `fault` the number of trailing bytes that cannot be written (0 when
the copy succeeds). Returns the number of bytes not copied and the new user
memory. -/
def copy_to_user (umem : List Char) (src : List Char) (n : Nat) (fault : Nat) :
    Nat × List Char :=
  let missed := min fault n
  (missed, src.take (n - missed) ++ umem.drop (n - missed))

/-- Size of `eyes_buffer`. -/
def EYES_BUF_SZ : Nat := 256

/-- Reinterpret an `s64` as `unsigned long long`. -/
def to_u64 (v : Int) : Nat := (v % 18446744073709551616).toNat

/-- The text `eyes_read` formats with `"%llu %u %u %u %s\n"`. -/
def eyes_format (samp : eyes_sample) : List Char :=
  fmt_u (to_u64 samp.ts / 1000000) ++ [' '] ++ fmt_u samp.x ++ [' '] ++ fmt_u samp.y ++
    [' '] ++ fmt_u samp.lux ++ [' '] ++ (if samp.blink then "true" else "false").toList ++
    ['\n']

/-- The body of `eyes_read` after `generate_sample(&samp)`: format into
`eyes_buffer`, check the caller's length, copy out. The result is the return
value, the driver state and the user memory at `buffer`. -/
def eyes_read_sample (st : eyes_state) (samp : eyes_sample) (len : Nat)
    (umem : List Char) (fault : Nat) : Int × eyes_state × List Char :=
  let buf := snprintf EYES_BUF_SZ (eyes_format samp)
  let st1 : eyes_state := ⟨st.eyes_mutex, st.sample_interval_ms, st.simulate_blink, buf⟩
  let out_len := strlen buf
  if len < out_len then (-EINVAL, st1, umem)
  else
    let r := copy_to_user umem buf out_len fault
    if r.1 ≠ 0 then (-EFAULT, st1, r.2) else ((out_len : Int), st1, r.2)

/-- `eyes_read`: `rnd`, `rnd2`, `now` feed `generate_sample`. -/
def eyes_read (st : eyes_state) (rnd rnd2 : Nat) (now : Int) (len : Nat)
    (umem : List Char) (fault : Nat) : Int × eyes_state × List Char :=
  eyes_read_sample st (generate_sample st.simulate_blink rnd rnd2 now) len umem fault

/-- The text `neural_read` formats with
`"[neural_driver] Atividade cerebral detectada: %d µV\n"`; the micro sign is
the two bytes C2 B5 of the UTF-8 source file. -/
def neural_format (v : Int) : List Char :=
  "[neural_driver] Atividade cerebral detectada: ".toList ++ fmt_d v ++
    " \xc2\xb5V\n".toList

/-- `neural_read`: `noise` is the `int` filled by `get_random_bytes`. The
caller's `len` is not consulted. -/
def neural_read (st : neural_state) (noise : Int) (_len : Nat)
    (umem : List Char) (fault : Nat) : Int × neural_state × List Char :=
  let buf := snprintf 256 (neural_format (neural_microvolts noise))
  let st1 : neural_state := ⟨st.neural_mutex, buf⟩
  let r := copy_to_user umem buf (strlen buf) fault
  if r.1 = 0 then ((strlen buf : Int), st1, r.2) else (-EFAULT, st1, r.2)

/-! ## The command parser of `eyes_write` -/

/-- The loop of the kernel's `strnstr`, `s2` not empty: while `len >= l2`,
compare `l2` bytes at `s1` and advance. The result is the offset of the
match. -/
def strnstr_loop (s2 : List Char) : Nat → List Char → Nat → Option Nat
  | 0, _, _ => none
  | len + 1, s1, off =>
    if s2.length ≤ len + 1 then
      if s1.take s2.length = s2 then some off
      else strnstr_loop s2 len s1.tail (off + 1)
    else none

/-- The kernel's `strnstr(s1, s2, len)`: offset of the first occurrence of
`s2` in the first `len` bytes of `s1` (`memcmp`, so NUL bytes of `s1` are
ordinary bytes), `none` for NULL. -/
def strnstr (s1 s2 : List Char) (len : Nat) : Option Nat :=
  if s2.length = 0 then some 0 else strnstr_loop s2 len s1 0

/-- The kernel's `isspace` (`_ctype` table): TAB..CR, space and 0xA0. -/
def isspace (c : Char) : Bool :=
  (9 ≤ c.toNat && c.toNat ≤ 13) || c.toNat == 32 || c.toNat == 160

/-- The kernel's `isdigit`. -/
def isdigit (c : Char) : Bool := 48 ≤ c.toNat && c.toNat ≤ 57

/-- The kernel's `skip_spaces`. -/
def skip_spaces (s : List Char) : List Char := s.dropWhile isspace

/-- The kernel's `simple_strtoull(s, _, 10)`: accumulates the leading decimal
digits in an `unsigned long long`, wrapping. -/
def simple_strtoull (s : List Char) : Nat :=
  (s.takeWhile isdigit).foldl
    (fun acc c => (acc * 10 + (c.toNat - 48)) % 18446744073709551616) 0

/-- Literal part of a `vsscanf` format (no white space, no `%`): every byte
must match the input exactly; the result is the rest of the input. -/
def match_lit : List Char → List Char → Option (List Char)
  | [], str => some str
  | _ :: _, [] => none
  | f :: fs, c :: cs => if f = c then match_lit fs cs else none

/-- The `%u` conversion of `vsscanf`: fails at the end of the input, skips
white space, requires a digit, stores the parsed value into an
`unsigned int`. -/
def scan_u (str : List Char) : Option Nat :=
  match str with
  | [] => none
  | _ :: _ =>
    match skip_spaces str with
    | [] => none
    | d :: rest =>
      if isdigit d then some (simple_strtoull (d :: rest) % 4294967296) else none

/-- `sscanf(buf, lit "%u", &v)` with `v` holding `v0` before the call: the
number of conversions made (0 or 1) and the value of `v` afterwards. -/
def sscanf_lit_u (buf : List Char) (lit : List Char) (v0 : Nat) : Nat × Nat :=
  match (match_lit lit (cstr buf)).bind scan_u with
  | some v => (1, v)
  | none => (0, v0)

/-- `eyes_write`: `text` is the `len = text.length` bytes at the caller's
`buffer`; `alloc_ok` says whether `kzalloc` succeeds and `copy_ok` whether
`copy_from_user` does. `kbuf` is the zeroed allocation of `len + 1` bytes
after the copy. -/
def eyes_write (st : eyes_state) (text : List Char) (alloc_ok copy_ok : Bool) :
    Int × eyes_state :=
  let len := text.length
  let rc : Int := len
  if !alloc_ok then (-ENOMEM, st)
  else if !copy_ok then (-EFAULT, st)
  else
    let kbuf := text ++ [NUL]
    if (strnstr kbuf "interval=".toList len).isSome then
      let r := sscanf_lit_u kbuf "interval=".toList 0
      if r.1 = 1 ∧ r.2 > 0 then
        (rc, ⟨st.eyes_mutex, r.2, st.simulate_blink, st.eyes_buffer⟩)
      else (rc, st)
    else if (strnstr kbuf "blink=".toList len).isSome then
      let r := sscanf_lit_u kbuf "blink=".toList 0
      if r.1 = 1 then
        (rc, ⟨st.eyes_mutex, st.sample_interval_ms, decide (r.2 ≠ 0), st.eyes_buffer⟩)
      else (rc, st)
    else (rc, st)

/-- One `eyes_write` call of a trace: its bytes and whether the allocation
and the copy from the caller succeed. -/
structure write_call where
  text : List Char
  alloc_ok : Bool
  copy_ok : Bool
deriving DecidableEq

/-- The driver state after a sequence of `eyes_write` calls. -/
def eyes_writes (st : eyes_state) (calls : List write_call) : eyes_state :=
  calls.foldl (fun s c => (eyes_write s c.text c.alloc_ok c.copy_ok).2) st

/-! ## Decimal numerals -/

/-- The decimal numeral of `n`, most significant digit first, by the usual
recursion; `Nat.toDigits 10` is shown equal to it. -/
def dec_numeral (n : Nat) : List Char :=
  if n < 10 then [Nat.digitChar n] else dec_numeral (n / 10) ++ [Nat.digitChar (n % 10)]
decreasing_by omega

/-- Value of a run of decimal digits, without wrapping. -/
def digits_value (l : List Char) : Nat :=
  l.foldl (fun acc c => acc * 10 + (c.toNat - 48)) 0

/-! ## Substrings and traces of driver calls -/

/-- The string `s` begins with `lit`. -/
def begins_with (s lit : List Char) : Bool := s.take lit.length == lit

/-- The string `lit` occurs in `s` as a substring: some suffix of `s` begins
with it. -/
def has_substr : List Char → List Char → Bool
  | [], lit => begins_with [] lit
  | c :: cs, lit => begins_with (c :: cs) lit || has_substr cs lit

/-- The value written after a key does, once leading white space is skipped,
start with a decimal digit (bytes after a NUL are not part of the value). -/
def leading_digit (value : List Char) : Bool :=
  match skip_spaces (cstr value) with
  | [] => false
  | d :: _ => isdigit d

/-- One call on the opened eyes device. -/
inductive eyes_call where
  | c_open
  | c_release
  | c_read (rnd rnd2 : Nat) (now : Int) (len : Nat) (umem : List Char) (fault : Nat)
  | c_write (text : List Char) (alloc_ok copy_ok : Bool)

/-- The driver state after one call. -/
def eyes_call_step (st : eyes_state) : eyes_call → eyes_state
  | eyes_call.c_open => (eyes_open st).2
  | eyes_call.c_release => (eyes_release st).2
  | eyes_call.c_read rnd rnd2 now len umem fault =>
    (eyes_read st rnd rnd2 now len umem fault).2.1
  | eyes_call.c_write text alloc_ok copy_ok => (eyes_write st text alloc_ok copy_ok).2

/-- The driver state after a sequence of calls. -/
def eyes_calls (st : eyes_state) (calls : List eyes_call) : eyes_state :=
  calls.foldl eyes_call_step st

/-- No write of the sequence changes `simulate_blink`. -/
def blink_kept (st : eyes_state) : List eyes_call → Bool
  | [] => true
  | eyes_call.c_write text alloc_ok copy_ok :: cs =>
    decide ((eyes_write st text alloc_ok copy_ok).2.simulate_blink = st.simulate_blink) &&
      blink_kept (eyes_call_step st (eyes_call.c_write text alloc_ok copy_ok)) cs
  | c :: cs => blink_kept (eyes_call_step st c) cs

/-! ## `neural_write` -/

/-- `neural_write`: `text` is the `len = text.length` bytes at the caller's
`buffer`, `copy_ok` says whether `copy_from_user` succeeds. `input` is the
local `char input[64]` after the copy of `copy_len` bytes and the store of
the terminator. -/
def neural_write (st : neural_state) (text : List Char) (copy_ok : Bool) :
    Int × neural_state :=
  let len := text.length
  let copy_len := min len (64 - 1)
  if !copy_ok then (-EFAULT, st)
  else
    let input := text.take copy_len ++ [NUL]
    ((len : Int),
      ⟨st.neural_mutex,
        snprintf 256 ("[neural_driver] Comando neural processado: ".toList ++ cstr input ++
          "\n".toList)⟩)

/-! ## The eyes read protocol, in the words of the specification -/

/-- The line of the eyes read protocol as the specification words it:
`<timestamp_ms> <x> <y> <lux> <true|false>` and a newline, five fields
separated by single spaces, the first four in unsigned decimal with
`timestamp_ms = timestamp_ns / 1000000`, the fifth "true" exactly when
`blink` is set. -/
def eyes_line_spec (timestamp_ns x y lux : Nat) (blink : Bool) : List Char :=
  List.intercalate [' ']
    [(Nat.repr (timestamp_ns / 1000000)).toList, (Nat.repr x).toList, (Nat.repr y).toList,
      (Nat.repr lux).toList, (if blink then "true" else "false").toList] ++ ['\n']

/-! ## Counting blink words -/

/-- Number of values `r < n` of the blink word for which `generate_sample`,
with `simulate_blink` set, yields `blink = true`. -/
def blink_count (n : Nat) : Nat :=
  (List.range n).countP (fun r => (generate_sample true 0 r 0).blink)

/-! ## Module load -/

/-- Kernel resources the load routines acquire. -/
inductive kres where
  | chrdev
  | kclass
  | kdevice
  | ts_mem
  | input_dev
  | input_registered
  | event_timer
deriving DecidableEq

/-- Result of a kernel call returning a pointer checked with `IS_ERR`:
a valid pointer, or `ERR_PTR(e)`. -/
inductive kptr where
  | valid
  | err_ptr (e : Int)
deriving DecidableEq

/-- `eyes_init`. `live` is the list of resources held before the call;
`major` is what `register_chrdev` returns (negative on failure), `cls` what
`class_create` returns and `dev` what `device_create` returns. The result is
the return value and the resources held afterwards. -/
def eyes_init (live : List kres) (major : Int) (cls dev : kptr) : Int × List kres :=
  if major < 0 then (major, live)
  else
    let live1 := kres.chrdev :: live
    match cls with
    | kptr.err_ptr e => (e, live1.erase kres.chrdev)
    | kptr.valid =>
      let live2 := kres.kclass :: live1
      match dev with
      | kptr.err_ptr e => (e, (live2.erase kres.kclass).erase kres.chrdev)
      | kptr.valid => (0, kres.kdevice :: live2)

/-- `neural_init`, with the same arguments as `eyes_init`. -/
def neural_init (live : List kres) (major : Int) (cls dev : kptr) : Int × List kres :=
  if major < 0 then (major, live)
  else
    let live1 := kres.chrdev :: live
    match cls with
    | kptr.err_ptr e => (e, live1.erase kres.chrdev)
    | kptr.valid =>
      let live2 := kres.kclass :: live1
      match dev with
      | kptr.err_ptr e => (e, (live2.erase kres.kclass).erase kres.chrdev)
      | kptr.valid => (0, kres.kdevice :: live2)

/-- `ln_touch_init`: `alloc_ok` says whether `kzalloc` succeeds, `input_ok`
whether `input_allocate_device` does, `ret` is what `input_register_device`
returns (nonzero on failure). On success the timer is set up and armed. -/
def ln_touch_init (live : List kres) (alloc_ok input_ok : Bool) (ret : Int) :
    Int × List kres :=
  if !alloc_ok then (-ENOMEM, live)
  else
    let live1 := kres.ts_mem :: live
    if !input_ok then (-ENOMEM, live1.erase kres.ts_mem)
    else
      let live2 := kres.input_dev :: live1
      if ret ≠ 0 then (ret, (live2.erase kres.input_dev).erase kres.ts_mem)
      else (0, kres.event_timer :: kres.input_registered :: live2)

/-! ## `Censor::filter` (`src/apps/censor/censor.cpp`)

A `std::string` is the list of its bytes; the accented letters of the
dictionary are the two-byte UTF-8 sequences of the source file. -/

/-- `::tolower` in the "C" locale: only `A`..`Z` change. -/
def tolower_c (c : Char) : Char :=
  if 65 ≤ c.toNat ∧ c.toNat ≤ 90 then Char.ofNat (c.toNat + 32) else c

/-- `Censor::toLower`. -/
def toLower (s : List Char) : List Char := s.map tolower_c

/-- Search of `std::string::find` from the suffix `s` that starts at index
`i`: the first index at which `word` begins. -/
def find_at : List Char → List Char → Nat → Option Nat
  | [], word, i => if word = [] then some i else none
  | c :: cs, word, i =>
    if begins_with (c :: cs) word then some i else find_at cs word (i + 1)

/-- `s.find(word, pos)`: lowest index `>= pos` at which `word` occurs in `s`,
`none` for `npos`. -/
def string_find (s word : List Char) (pos : Nat) : Option Nat :=
  if pos ≤ s.length then find_at (s.drop pos) word pos else none

/-- `s.replace(pos, len, str)`. -/
def string_replace (s : List Char) (pos len : Nat) (str : List Char) : List Char :=
  s.take pos ++ str ++ s.drop (pos + len)

/-- The inner `while` loop of `Censor::filter` for one dictionary entry, run
for at most `fuel` iterations; `none` when the fuel runs out before `find`
returns `npos`. -/
def replace_loop (word replacement : List Char) : Nat → List Char → Nat → Option (List Char)
  | 0, _, _ => none
  | fuel + 1, output, pos =>
    match string_find (toLower output) word pos with
    | none => some output
    | some p =>
      replace_loop word replacement fuel
        (string_replace output p word.length replacement) (p + replacement.length)

/-- The body of the `for` loop of `Censor::filter` for one entry, `pos`
starting at 0; `output.length + 1` iterations are allowed. -/
def censor_entry (word replacement output : List Char) : Option (List Char) :=
  replace_loop word replacement (output.length + 1) output 0

/-- `Censor::filter` when the `for` loop visits the entries in the order
`order`. -/
def censor_filter : List (List Char × List Char) → List Char → Option (List Char)
  | [], output => some output
  | (word, replacement) :: rest, output =>
    (censor_entry word replacement output).bind (censor_filter rest)

/-- The dictionary built by the constructor of `Censor`, in the order of the
initializer list. -/
def dictionary : List (List Char × List Char) :=
  [("idiota".toList, "pessoa confusa".toList),
   ("burro".toList, "distra\xc3\xaddo".toList),
   ("palavr\xc3\xa3o".toList, "***".toList),
   ("doido".toList, "exc\xc3\xaantrico".toList),
   ("boboca".toList, "engra\xc3\xa7ado".toList)]

/-! ## `run_cmd` (`src/TestingSystem/TestingSystem.c`) -/

/-- Subtraction of two `size_t` values: it wraps modulo 2^64 when `b`
exceeds `a`. -/
def size_sub (a b : Nat) : Nat :=
  if b ≤ a then a - b else (a + 18446744073709551616 - b) % 18446744073709551616

/-- The cast `(int)` of a `size_t` value: unchanged up to `INT_MAX`, wrapped
beyond. -/
def size_to_int (v : Nat) : Int :=
  if v < 2147483648 then (v : Int) else wrap_int (v : Int)

/-- The bytes one `fgets` call takes from the stream when it may store up to
`n` of them: it stops after a newline; the result is the bytes taken and the
rest of the stream. -/
def fgets_line : Nat → List Char → List Char × List Char
  | 0, s => ([], s)
  | _ + 1, [] => ([], [])
  | n + 1, c :: cs =>
    if c = '\n' then ([c], cs) else ((c :: (fgets_line n cs).1), (fgets_line n cs).2)

/-- `fgets(s, n, fp)` on a stream whose unread bytes are `stream`: `none` for
a NULL result (nothing stored), otherwise the bytes stored before the
terminator and the rest of the stream. -/
def fgets (n : Int) (stream : List Char) : Option (List Char × List Char) :=
  if n ≤ 0 then none
  else if n = 1 then some ([], stream)
  else if stream = [] then none
  else some (fgets_line (n.toNat - 1) stream)

/-- Store `bytes` into memory at offset `off`. -/
def mem_write (mem : List Char) (off : Nat) (bytes : List Char) : List Char :=
  mem.take off ++ bytes ++ mem.drop (off + bytes.length)

/-- The `while` loop of `run_cmd`, for at most `fuel` iterations: `mem` is
the memory at `out`, `stream` the unread output of the command. -/
def runcmd_loop (out_len : Nat) (max_lines : Int) :
    Nat → List Char → List Char → Nat → Int → Option (List Char)
  | 0, _, _, _, _ => none
  | fuel + 1, mem, stream, written, lines =>
    match fgets (size_to_int (size_sub out_len written)) stream with
    | none => some mem
    | some r =>
      let mem1 := mem_write mem written (r.1 ++ [NUL])
      let written1 := strlen (cstr mem1)
      let lines1 := lines + 1
      if max_lines > 0 ∧ lines1 ≥ max_lines then some mem1
      else if written1 ≥ size_sub out_len 2 then some mem1
      else runcmd_loop out_len max_lines fuel mem1 r.2 written1 lines1

/-- `run_cmd(cmd, out, out_len, max_lines)`. A NULL `cmd` or `out` is `none`;
`popen_out` is `none` when `popen` fails (with `errstr` the text of
`strerror(errno)`), otherwise the bytes the command writes to its standard
output. The result is the return value and the memory at `out`; the outer
`none` stands for a loop that has not ended within `stream.length + 1`
iterations. -/
def runcmd (cmd : Option (List Char)) (out : Option (List Char)) (out_len : Nat)
    (max_lines : Int) (popen_out : Option (List Char)) (errstr : List Char) :
    Option (Int × Option (List Char)) :=
  match cmd, out with
  | none, _ => some (-1, out)
  | _, none => some (-1, out)
  | some _, some mem =>
    match popen_out with
    | none =>
      if out_len = 0 then some (-1, some mem)
      else
        some (-1, some (mem_write mem 0
          (snprintf out_len ("ERROR: popen failed (".toList ++ errstr ++ ")".toList) ++ [NUL])))
    | some stream =>
      (runcmd_loop out_len max_lines (stream.length + 1) mem stream 0 0).map
        (fun m => (0, some m))

/-! # Theorems -/

/-! ## Session lock: theorems -/

theorem lock_inv_erase {locked : Bool} {sessions : List Nat} {c : Nat}
    (h : lock_inv locked sessions) (hc : c ∈ sessions) :
    lock_inv false (sessions.erase c) := by
  obtain ⟨h1, _⟩ := h
  have hl : (sessions.erase c).length = sessions.length - 1 :=
    List.length_erase_of_mem hc
  have hpos : 0 < sessions.length := List.length_pos_of_mem hc
  refine ⟨by omega, ?_⟩
  constructor
  · intro hf; cases hf
  · intro h2; omega

theorem eyes_step_inv (w : eyes_world) (op : fop)
    (h : lock_inv w.st.eyes_mutex w.sessions)
    (hop : ∀ c, op = fop.frelease c → c ∈ w.sessions) :
    lock_inv (eyes_step w op).st.eyes_mutex (eyes_step w op).sessions := by
  cases op with
  | fopen c =>
    obtain ⟨h1, h2⟩ := h
    cases hm : w.st.eyes_mutex with
    | true =>
      have : eyes_step w (fop.fopen c) = ⟨w.st, w.sessions⟩ := by
        simp [eyes_step, eyes_open, mutex_trylock, hm, EBUSY]
      rw [this]
      exact ⟨h1, by simpa [hm] using h2⟩
    | false =>
      have h0 : w.sessions.length = 0 := by
        have : ¬ w.sessions.length = 1 := by
          intro h3; have := h2.mpr h3; simp [hm] at this
        omega
      simp [eyes_step, eyes_open, mutex_trylock, hm, lock_inv, h0]
  | frelease c =>
    have hc := hop c rfl
    simpa [eyes_step, eyes_release, mutex_unlock] using lock_inv_erase h hc

theorem eyes_run_inv (ops : List fop) : ∀ (w : eyes_world),
    lock_inv w.st.eyes_mutex w.sessions → eyes_wf w ops = true →
    lock_inv (eyes_run w ops).st.eyes_mutex (eyes_run w ops).sessions := by
  induction ops with
  | nil => intro w h _; simpa [eyes_run] using h
  | cons op ops ih =>
    intro w h hwf
    have hstep : lock_inv (eyes_step w op).st.eyes_mutex (eyes_step w op).sessions := by
      apply eyes_step_inv w op h
      intro c hc
      subst hc
      simp [eyes_wf] at hwf
      exact hwf.1
    have hwf2 : eyes_wf (eyes_step w op) ops = true := by
      cases op with
      | fopen c => simpa [eyes_wf] using hwf
      | frelease c => simp [eyes_wf] at hwf; exact hwf.2
    simpa [eyes_run] using ih (eyes_step w op) hstep hwf2

theorem eyes_wf_take (ops : List fop) : ∀ (w : eyes_world) (k : Nat),
    eyes_wf w ops = true → eyes_wf w (ops.take k) = true := by
  induction ops with
  | nil => intro w k h; simp [eyes_wf]
  | cons op ops ih =>
    intro w k h
    cases k with
    | zero => simp [eyes_wf]
    | succ k =>
      cases op with
      | fopen c =>
        simp only [List.take_succ_cons, eyes_wf] at h ⊢
        exact ih _ k h
      | frelease c =>
        simp only [List.take_succ_cons, eyes_wf, Bool.and_eq_true] at h ⊢
        exact ⟨h.1, ih _ k h.2⟩

theorem neural_step_inv (w : neural_world) (op : fop)
    (h : lock_inv w.st.neural_mutex w.sessions)
    (hop : ∀ c, op = fop.frelease c → c ∈ w.sessions) :
    lock_inv (neural_step w op).st.neural_mutex (neural_step w op).sessions := by
  cases op with
  | fopen c =>
    obtain ⟨h1, h2⟩ := h
    cases hm : w.st.neural_mutex with
    | true =>
      have : neural_step w (fop.fopen c) = ⟨w.st, w.sessions⟩ := by
        simp [neural_step, neural_open, mutex_trylock, hm, EBUSY]
      rw [this]
      exact ⟨h1, by simpa [hm] using h2⟩
    | false =>
      have h0 : w.sessions.length = 0 := by
        have : ¬ w.sessions.length = 1 := by
          intro h3; have := h2.mpr h3; simp [hm] at this
        omega
      simp [neural_step, neural_open, mutex_trylock, hm, lock_inv, h0]
  | frelease c =>
    have hc := hop c rfl
    simpa [neural_step, neural_release, mutex_unlock] using lock_inv_erase h hc

theorem neural_run_inv (ops : List fop) : ∀ (w : neural_world),
    lock_inv w.st.neural_mutex w.sessions → neural_wf w ops = true →
    lock_inv (neural_run w ops).st.neural_mutex (neural_run w ops).sessions := by
  induction ops with
  | nil => intro w h _; simpa [neural_run] using h
  | cons op ops ih =>
    intro w h hwf
    have hstep : lock_inv (neural_step w op).st.neural_mutex (neural_step w op).sessions := by
      apply neural_step_inv w op h
      intro c hc
      subst hc
      simp [neural_wf] at hwf
      exact hwf.1
    have hwf2 : neural_wf (neural_step w op) ops = true := by
      cases op with
      | fopen c => simpa [neural_wf] using hwf
      | frelease c => simp [neural_wf] at hwf; exact hwf.2
    simpa [neural_run] using ih (neural_step w op) hstep hwf2

theorem neural_wf_take (ops : List fop) : ∀ (w : neural_world) (k : Nat),
    neural_wf w ops = true → neural_wf w (ops.take k) = true := by
  induction ops with
  | nil => intro w k h; simp [neural_wf]
  | cons op ops ih =>
    intro w k h
    cases k with
    | zero => simp [neural_wf]
    | succ k =>
      cases op with
      | fopen c =>
        simp only [List.take_succ_cons, neural_wf] at h ⊢
        exact ih _ k h
      | frelease c =>
        simp only [List.take_succ_cons, neural_wf, Bool.and_eq_true] at h ⊢
        exact ⟨h.1, ih _ k h.2⟩

/-- C1: for the eyes and the neural driver alike, `open` on a held session
lock returns `-EBUSY` and leaves the lock held (the whole state is
unchanged); and after the holder calls `release`, the next `open` returns 0
and holds the lock. -/
theorem C1_open_busy_then_release_reopens :
    (∀ st : eyes_state, st.eyes_mutex = true →
      (eyes_open st).1 = -EBUSY ∧ (eyes_open st).2 = st ∧
      (eyes_open st).2.eyes_mutex = true ∧
      (eyes_release st).1 = 0 ∧
      (eyes_open (eyes_release st).2).1 = 0 ∧
      (eyes_open (eyes_release st).2).2.eyes_mutex = true) ∧
    (∀ st : neural_state, st.neural_mutex = true →
      (neural_open st).1 = -EBUSY ∧ (neural_open st).2 = st ∧
      (neural_open st).2.neural_mutex = true ∧
      (neural_release st).1 = 0 ∧
      (neural_open (neural_release st).2).1 = 0 ∧
      (neural_open (neural_release st).2).2.neural_mutex = true) := by
  constructor
  · intro st h
    simp [eyes_open, eyes_release, mutex_trylock, mutex_unlock, h]
  · intro st h
    simp [neural_open, neural_release, mutex_trylock, mutex_unlock, h]

/-- Witness for C1: a held eyes driver and a held neural driver. -/
theorem C1_open_busy_then_release_reopens_witness :
    ((eyes_open ⟨true, 100, true, []⟩).1 = -EBUSY ∧
      (eyes_open ⟨true, 100, true, []⟩).2.eyes_mutex = true ∧
      (eyes_open (eyes_release ⟨true, 100, true, []⟩).2).1 = 0) ∧
    ((neural_open ⟨true, []⟩).1 = -EBUSY ∧
      (neural_open ⟨true, []⟩).2.neural_mutex = true ∧
      (neural_open (neural_release ⟨true, []⟩).2).1 = 0) := by
  have he := C1_open_busy_then_release_reopens.1 ⟨true, 100, true, []⟩ rfl
  have hn := C1_open_busy_then_release_reopens.2 ⟨true, []⟩ rfl
  exact ⟨⟨he.1, he.2.2.1, he.2.2.2.2.1⟩, ⟨hn.1, hn.2.2.1, hn.2.2.2.2.1⟩⟩

/-- C2: starting from the freshly loaded driver (lock free, no session), for
every well-formed sequence of open and release calls and at every point `k`
of it, at most one session is open and the mutex is held exactly when one
is; for the eyes and the neural driver. -/
theorem C2_at_most_one_session (ops : List fop) (k : Nat) :
    (eyes_wf ⟨eyes_loaded, []⟩ ops = true →
      (eyes_run ⟨eyes_loaded, []⟩ (ops.take k)).sessions.length ≤ 1 ∧
      ((eyes_run ⟨eyes_loaded, []⟩ (ops.take k)).st.eyes_mutex = true ↔
        (eyes_run ⟨eyes_loaded, []⟩ (ops.take k)).sessions.length = 1)) ∧
    (neural_wf ⟨neural_loaded, []⟩ ops = true →
      (neural_run ⟨neural_loaded, []⟩ (ops.take k)).sessions.length ≤ 1 ∧
      ((neural_run ⟨neural_loaded, []⟩ (ops.take k)).st.neural_mutex = true ↔
        (neural_run ⟨neural_loaded, []⟩ (ops.take k)).sessions.length = 1)) := by
  constructor
  · intro hwf
    exact eyes_run_inv (ops.take k) ⟨eyes_loaded, []⟩
      (by simp [lock_inv, eyes_loaded]) (eyes_wf_take ops _ k hwf)
  · intro hwf
    exact neural_run_inv (ops.take k) ⟨neural_loaded, []⟩
      (by simp [lock_inv, neural_loaded]) (neural_wf_take ops _ k hwf)

/-- Witness for C2: caller 1 opens, caller 2 is refused, caller 1 releases,
caller 2 opens; observed after three and after four calls. -/
theorem C2_at_most_one_session_witness :
    eyes_wf ⟨eyes_loaded, []⟩ [fop.fopen 1, fop.fopen 2, fop.frelease 1, fop.fopen 2] = true ∧
    neural_wf ⟨neural_loaded, []⟩
      [fop.fopen 1, fop.fopen 2, fop.frelease 1, fop.fopen 2] = true ∧
    (eyes_run ⟨eyes_loaded, []⟩
      ([fop.fopen 1, fop.fopen 2, fop.frelease 1, fop.fopen 2].take 3)).sessions.length ≤ 1 ∧
    (neural_run ⟨neural_loaded, []⟩
      ([fop.fopen 1, fop.fopen 2, fop.frelease 1, fop.fopen 2].take 4)).sessions.length ≤ 1 :=
  ⟨by decide, by decide,
   ((C2_at_most_one_session [fop.fopen 1, fop.fopen 2, fop.frelease 1, fop.fopen 2] 3).1
      (by decide)).1,
   ((C2_at_most_one_session [fop.fopen 1, fop.fopen 2, fop.frelease 1, fop.fopen 2] 4).2
      (by decide)).1⟩

/-! ## Sample ranges -/

theorem c_rem_bounds (a b : Int) (hb : 0 < b) : -b < c_rem a b ∧ c_rem a b < b := by
  unfold c_rem
  refine ⟨?_, Int.tmod_lt_of_pos a hb⟩
  obtain ⟨n, rfl⟩ := Int.eq_ofNat_of_zero_le (le_of_lt hb)
  have hn : 0 < n := by exact_mod_cast hb
  cases a with
  | ofNat m =>
    have : (0 : Int) ≤ Int.tmod (Int.ofNat m) (n : Int) := Int.tmod_nonneg _ (Int.ofNat_nonneg m)
    omega
  | negSucc m =>
    have h1 : Int.tmod (Int.negSucc m) (n : Int) = -((Nat.succ m % n : Nat) : Int) := rfl
    have h2 : Nat.succ m % n < n := Nat.mod_lt _ hn
    rw [h1]
    omega

theorem kabs_small (r b : Int) (hb : b ≤ 2147483647) (h1 : -b < r) (h2 : r < b) :
    abs_overflows r = false ∧ kabs r = |r| ∧ 0 ≤ kabs r ∧ kabs r < b := by
  have habs : kabs r = |r| := by
    unfold kabs wrap_int
    split
    · rename_i hneg
      rw [abs_of_neg hneg]
      omega
    · rename_i hnn
      rw [abs_of_nonneg (by omega)]
  refine ⟨?_, habs, ?_, ?_⟩
  · simp only [abs_overflows, INT_MAX, decide_eq_false_iff_not, not_and, not_lt]
    intro _
    omega
  · rw [habs]; exact abs_nonneg r
  · rw [habs]; exact abs_lt.mpr ⟨h1, h2⟩

/-- What the code does guarantee: for every 32-bit signed `noise`, the value
formatted by `neural_read` lies in [-299, 99], and for `noise >= 0` it is at
least -100. -/
theorem neural_microvolts_range (noise : Int) (_h : is_int32 noise) :
    -299 ≤ neural_microvolts noise ∧ neural_microvolts noise ≤ 99 ∧
    (0 ≤ noise → -100 ≤ neural_microvolts noise) := by
  have hb := c_rem_bounds noise 200 (by decide)
  unfold neural_microvolts
  refine ⟨by omega, by omega, ?_⟩
  intro h0
  have : 0 ≤ c_rem noise 200 := Int.tmod_nonneg 200 h0
  omega

/-- C3, failing input: with `noise = -1` the value formatted is -101, which
is below the declared lower bound -100. -/
theorem C3_neural_microvolts_below_range :
    is_int32 (-1) ∧ neural_microvolts (-1) = -101 ∧ ¬ (-100 ≤ neural_microvolts (-1)) := by
  refine ⟨by decide, by decide, by decide⟩

/-- C4: for every 32-bit unsigned random word (and whatever the blink word,
flag and clock), `generate_sample` yields x in [0,1920], y in [0,1080] and
lux in [0,10000], and the 16-bit stores keep the computed values. -/
theorem C4_eyes_sample_in_range (sb : Bool) (rnd rnd2 : Nat) (now : Int)
    (_h : is_u32 rnd) :
    (generate_sample sb rnd rnd2 now).x ≤ 1920 ∧
    (generate_sample sb rnd rnd2 now).y ≤ 1080 ∧
    (generate_sample sb rnd rnd2 now).lux ≤ 10000 ∧
    (generate_sample sb rnd rnd2 now).x = rnd % 1921 ∧
    (generate_sample sb rnd rnd2 now).y = (rnd / 65536) % 1081 ∧
    (generate_sample sb rnd rnd2 now).lux = rnd % 10001 := by
  have hs : rnd >>> 16 = rnd / 65536 := by
    rw [Nat.shiftRight_eq_div_pow]
  simp only [generate_sample, to_u16, hs]
  omega

/-- Witness for C4 at the all-ones random word. -/
theorem C4_eyes_sample_in_range_witness :
    is_u32 4294967295 ∧
    (generate_sample true 4294967295 7 0).x ≤ 1920 ∧
    (generate_sample true 4294967295 7 0).y ≤ 1080 ∧
    (generate_sample true 4294967295 7 0).lux ≤ 10000 ∧
    (generate_sample true 4294967295 7 0).x = 4294967295 % 1921 ∧
    (generate_sample true 4294967295 7 0).y = (4294967295 / 65536) % 1081 ∧
    (generate_sample true 4294967295 7 0).lux = 4294967295 % 10001 :=
  ⟨by decide, C4_eyes_sample_in_range true 4294967295 7 0 (by decide)⟩

/-- C5: for every triple of 32-bit signed random words, the values the
touchscreen timer callback stores and reports satisfy x in [0,1080],
y in [0,2400], pressure in [0,100], and none of the three `abs()` calls
overflows (each returns the mathematical absolute value of its remainder). -/
theorem C5_touch_sample_in_range (ts : ln_touchscreen) (new_x new_y new_pressure : Int)
    (_hx : is_int32 new_x) (_hy : is_int32 new_y) (_hp : is_int32 new_pressure) :
    (0 ≤ (ln_touch_event ts new_x new_y new_pressure).1.x ∧
      (ln_touch_event ts new_x new_y new_pressure).1.x ≤ 1080) ∧
    (0 ≤ (ln_touch_event ts new_x new_y new_pressure).1.y ∧
      (ln_touch_event ts new_x new_y new_pressure).1.y ≤ 2400) ∧
    (0 ≤ (ln_touch_event ts new_x new_y new_pressure).1.pressure ∧
      (ln_touch_event ts new_x new_y new_pressure).1.pressure ≤ 100) ∧
    (ln_touch_event ts new_x new_y new_pressure).2 =
      [(ABS_MT_POSITION_X, |c_rem new_x 1080|), (ABS_MT_POSITION_Y, |c_rem new_y 2400|),
       (ABS_MT_PRESSURE, |c_rem new_pressure 100|)] ∧
    abs_overflows (c_rem new_x 1080) = false ∧
    abs_overflows (c_rem new_y 2400) = false ∧
    abs_overflows (c_rem new_pressure 100) = false := by
  have bx := c_rem_bounds new_x 1080 (by decide)
  have b_y := c_rem_bounds new_y 2400 (by decide)
  have bp := c_rem_bounds new_pressure 100 (by decide)
  obtain ⟨ox, ex, nx, ux⟩ := kabs_small (c_rem new_x 1080) 1080 (by decide) bx.1 bx.2
  obtain ⟨oy, ey, ny, uy⟩ := kabs_small (c_rem new_y 2400) 2400 (by decide) b_y.1 b_y.2
  obtain ⟨op, ep, np, up⟩ := kabs_small (c_rem new_pressure 100) 100 (by decide) bp.1 bp.2
  simp only [ln_touch_event]
  refine ⟨⟨nx, by omega⟩, ⟨ny, by omega⟩, ⟨np, by omega⟩, ?_, ox, oy, op⟩
  rw [ex, ey, ep]

/-- Witness for C5 at `INT_MIN`, a negative word and `INT_MAX`. -/
theorem C5_touch_sample_in_range_witness :
    (ln_touch_event ⟨false, 0, 0, 0⟩ (-2147483648) (-1) 2147483647).1 =
      ⟨false, 848, 1, 47⟩ ∧
    abs_overflows (c_rem (-2147483648) 1080) = false := by
  have h := C5_touch_sample_in_range ⟨false, 0, 0, 0⟩ (-2147483648) (-1) 2147483647
    (by decide) (by decide) (by decide)
  exact ⟨by decide, h.2.2.2.2.1⟩

/-! ## Decimal numerals and the command parser: lemmas -/

theorem toDigitsCore_eq_dec (fuel : Nat) : ∀ (n : Nat) (acc : List Char), n < fuel →
    Nat.toDigitsCore 10 fuel n acc = dec_numeral n ++ acc := by
  induction fuel with
  | zero => intro n acc h; omega
  | succ fuel ih =>
    intro n acc h
    rw [dec_numeral]
    by_cases h10 : n < 10
    · have hd : n / 10 = 0 := by omega
      have hm : n % 10 = n := Nat.mod_eq_of_lt h10
      simp [Nat.toDigitsCore, hd, h10, hm]
    · have hd : n / 10 ≠ 0 := by omega
      simp only [Nat.toDigitsCore, hd, if_false, h10]
      rw [ih (n / 10) _ (by omega)]
      simp

theorem toDigits_eq_dec (n : Nat) : Nat.toDigits 10 n = dec_numeral n := by
  unfold Nat.toDigits
  rw [toDigitsCore_eq_dec (n + 1) n [] (by omega)]
  simp

theorem digitChar_facts (d : Nat) (h : d < 10) :
    isdigit (Nat.digitChar d) = true ∧ (Nat.digitChar d).toNat - 48 = d ∧
    isspace (Nat.digitChar d) = false ∧ Nat.digitChar d ≠ NUL := by
  interval_cases d <;> decide

theorem dec_all_isdigit (n : Nat) : ∀ c ∈ dec_numeral n, isdigit c = true := by
  induction n using Nat.strong_induction_on with
  | _ n ih =>
    rw [dec_numeral]
    by_cases h10 : n < 10
    · simp only [h10, if_true, List.mem_singleton]
      intro c hc; subst hc
      exact (digitChar_facts n h10).1
    · simp only [h10, if_false, List.mem_append, List.mem_singleton]
      intro c hc
      rcases hc with hc | hc
      · exact ih (n / 10) (by omega) c hc
      · subst hc; exact (digitChar_facts (n % 10) (by omega)).1

theorem dec_ne_nil (n : Nat) : dec_numeral n ≠ [] := by
  rw [dec_numeral]
  split <;> simp

theorem digits_value_dec (n : Nat) : digits_value (dec_numeral n) = n := by
  induction n using Nat.strong_induction_on with
  | _ n ih =>
    rw [dec_numeral]
    by_cases h10 : n < 10
    · simp only [h10, if_true, digits_value, List.foldl_cons, List.foldl_nil]
      have := (digitChar_facts n h10).2.1
      omega
    · simp only [h10, if_false, digits_value, List.foldl_append, List.foldl_cons, List.foldl_nil]
      have h1 := ih (n / 10) (by omega)
      unfold digits_value at h1
      rw [h1, (digitChar_facts (n % 10) (by omega)).2.1]
      omega

theorem dec_length_le (e : Nat) : ∀ n, n < 10 ^ (e + 1) → (dec_numeral n).length ≤ e + 1 := by
  induction e with
  | zero =>
    intro n h
    rw [dec_numeral]
    have : n < 10 := by simpa using h
    simp [this]
  | succ e ih =>
    intro n h
    rw [dec_numeral]
    by_cases h10 : n < 10
    · simp [h10]
    · simp only [h10, if_false, List.length_append, List.length_singleton]
      have : n / 10 < 10 ^ (e + 1) := by
        rw [Nat.div_lt_iff_lt_mul (by decide)]
        rw [pow_succ] at h
        exact h
      have := ih (n / 10) this
      omega

theorem wrap_foldl (l : List Char) : ∀ a : Nat,
    l.foldl (fun acc c => (acc * 10 + (c.toNat - 48)) % 18446744073709551616)
      (a % 18446744073709551616) =
    (l.foldl (fun acc c => acc * 10 + (c.toNat - 48)) a) % 18446744073709551616 := by
  induction l with
  | nil => intro a; rfl
  | cons c cs ih =>
    intro a
    simp only [List.foldl_cons]
    rw [← ih]
    congr 1
    omega

theorem takeWhile_append_stop {p : Char → Bool} (l rest : List Char)
    (hl : ∀ c ∈ l, p c = true) (hr : ∀ c, rest.head? = some c → p c = false) :
    (l ++ rest).takeWhile p = l := by
  induction l with
  | nil =>
    cases rest with
    | nil => rfl
    | cons r rs => simp [List.takeWhile, hr r rfl]
  | cons c cs ih =>
    have hc : p c = true := hl c (List.mem_cons_self _ _)
    simp only [List.cons_append, List.takeWhile_cons, hc, if_true]
    rw [ih (fun c hc => hl c (List.mem_cons_of_mem _ hc))]

theorem simple_strtoull_dec (n : Nat) (rest : List Char)
    (hr : ∀ c, rest.head? = some c → isdigit c = false) :
    simple_strtoull (dec_numeral n ++ rest) = n % 18446744073709551616 := by
  unfold simple_strtoull
  rw [takeWhile_append_stop _ _ (dec_all_isdigit n) hr]
  have h := wrap_foldl (dec_numeral n) 0
  rw [Nat.zero_mod] at h
  rw [h]
  have := digits_value_dec n
  unfold digits_value at this
  rw [this]

theorem isdigit_not_space (c : Char) (h : isdigit c = true) :
    isspace c = false ∧ c ≠ NUL := by
  simp only [isdigit, Bool.and_eq_true, decide_eq_true_eq] at h
  constructor
  · simp only [isspace, Bool.or_eq_false_iff, Bool.and_eq_false_iff, decide_eq_false_iff_not,
      beq_eq_false_iff_ne, ne_eq]
    omega
  · intro hc
    rw [hc] at h
    simp [NUL] at h

theorem cstr_of_no_nul (text : List Char) (h : ∀ c ∈ text, c ≠ NUL) :
    cstr (text ++ [NUL]) = text := by
  unfold cstr
  apply takeWhile_append_stop
  · intro c hc
    simpa using h c hc
  · intro c hc
    simp only [List.head?_cons, Option.some.injEq] at hc
    subst hc
    simp

theorem match_lit_append (lit rest : List Char) : match_lit lit (lit ++ rest) = some rest := by
  induction lit with
  | nil => simp [match_lit]
  | cons f fs ih => simp [match_lit, ih]

theorem scan_u_dec (n : Nat) :
    scan_u (dec_numeral n) = some (n % 18446744073709551616 % 4294967296) := by
  have hne := dec_ne_nil n
  have hall := dec_all_isdigit n
  have hval := simple_strtoull_dec n [] (by simp)
  rw [List.append_nil] at hval
  cases hd : dec_numeral n with
  | nil => exact absurd hd hne
  | cons d ds =>
    rw [hd] at hall hval
    have hdig : isdigit d = true := hall d (List.mem_cons_self _ _)
    have hsp : isspace d = false := (isdigit_not_space d hdig).1
    simp [scan_u, skip_spaces, List.dropWhile, hsp, hdig, hval]

theorem sscanf_lit_u_dec (lit : List Char) (n : Nat) (hlit : ∀ c ∈ lit, c ≠ NUL) :
    sscanf_lit_u (lit ++ dec_numeral n ++ [NUL]) lit 0 = (1, n % 4294967296) := by
  have hno : ∀ c ∈ lit ++ dec_numeral n, c ≠ NUL := by
    intro c hc
    rcases List.mem_append.mp hc with h | h
    · exact hlit c h
    · exact (isdigit_not_space c (dec_all_isdigit n c h)).2
  unfold sscanf_lit_u
  rw [cstr_of_no_nul _ hno, match_lit_append]
  simp only [Option.some_bind, scan_u_dec]
  congr 1
  omega

theorem strnstr_at_start (lit rest : List Char) (hlit : lit ≠ []) :
    strnstr (lit ++ rest ++ [NUL]) lit (lit ++ rest).length = some 0 := by
  have hl : 0 < lit.length := List.length_pos.mpr hlit
  unfold strnstr
  rw [if_neg (by omega)]
  obtain ⟨k, hk⟩ : ∃ k, (lit ++ rest).length = k + 1 := ⟨lit.length + rest.length - 1, by
    simp only [List.length_append]; omega⟩
  rw [hk]
  have hle : lit.length ≤ k + 1 := by
    rw [← hk, List.length_append]; omega
  simp [strnstr_loop, hle]

theorem strnstr_loop_mem (s2 : List Char) : ∀ (len : Nat) (s1 : List Char) (off r : Nat),
    strnstr_loop s2 len s1 off = some r → ∀ c ∈ s2, c ∈ s1 := by
  intro len
  induction len with
  | zero => intro s1 off r h; simp [strnstr_loop] at h
  | succ len ih =>
    intro s1 off r h c hc
    unfold strnstr_loop at h
    split at h
    · split at h
      · rename_i _ heq
        rw [← heq] at hc
        exact List.mem_of_mem_take hc
      · exact List.mem_of_mem_tail (ih _ _ _ h c hc)
    · cases h

theorem strnstr_none_of_not_mem (s1 s2 : List Char) (len : Nat) (c : Char)
    (hc : c ∈ s2) (hn : c ∉ s1) : strnstr s1 s2 len = none := by
  have hne : s2.length ≠ 0 := by
    intro h0
    have : s2 = [] := List.length_eq_zero.mp h0
    rw [this] at hc
    cases hc
  unfold strnstr
  rw [if_neg hne]
  cases h : strnstr_loop s2 len s1 0 with
  | none => rfl
  | some r => exact absurd (strnstr_loop_mem s2 len s1 0 r h c hc) hn

theorem eyes_write_interval_dec (st : eyes_state) (n : Nat) :
    eyes_write st ("interval=".toList ++ dec_numeral n) true true =
      (((("interval=".toList ++ dec_numeral n).length : Nat) : Int),
        if 0 < n % 4294967296 then
          ⟨st.eyes_mutex, n % 4294967296, st.simulate_blink, st.eyes_buffer⟩
        else st) := by
  have h1 := strnstr_at_start "interval=".toList (dec_numeral n) (by decide)
  have h2 := sscanf_lit_u_dec "interval=".toList n (by decide)
  unfold eyes_write
  simp only [Bool.not_true, Bool.false_eq_true, if_false, h1, h2, Option.isSome_some, if_true,
    true_and]
  split <;> rfl

theorem eyes_write_blink_dec (st : eyes_state) (v : Nat) :
    eyes_write st ("blink=".toList ++ dec_numeral v) true true =
      (((("blink=".toList ++ dec_numeral v).length : Nat) : Int),
        ⟨st.eyes_mutex, st.sample_interval_ms, decide (v % 4294967296 ≠ 0), st.eyes_buffer⟩) := by
  have h0 : strnstr ("blink=".toList ++ dec_numeral v ++ [NUL]) "interval=".toList
      ("blink=".toList ++ dec_numeral v).length = none := by
    apply strnstr_none_of_not_mem _ _ _ 't' (by decide)
    intro hmem
    simp only [List.mem_append, List.mem_singleton] at hmem
    rcases hmem with (h | h) | h
    · revert h; decide
    · have := dec_all_isdigit v _ h
      revert this; decide
    · revert h; decide
  have h1 := strnstr_at_start "blink=".toList (dec_numeral v) (by decide)
  have h2 := sscanf_lit_u_dec "blink=".toList v (by decide)
  unfold eyes_write
  simp only [Bool.not_true, Bool.false_eq_true, if_false, h0, h1, h2, Option.isSome_some,
    Option.isSome_none, if_true]

theorem eyes_write_interval_pos (st : eyes_state) (text : List Char) (a c : Bool)
    (h : 0 < st.sample_interval_ms) :
    0 < (eyes_write st text a c).2.sample_interval_ms := by
  unfold eyes_write
  simp only
  split
  · exact h
  · split
    · exact h
    · split
      · split
        · rename_i hr; exact hr.2
        · exact h
      · split
        · split
          · exact h
          · exact h
        · exact h

/-! ## Read path -/

theorem fmt_u_length (e n : Nat) (h : n < 10 ^ (e + 1)) : (fmt_u n).length ≤ e + 1 := by
  rw [fmt_u, toDigits_eq_dec]
  exact dec_length_le e n h

theorem eyes_format_length_le (samp : eyes_sample)
    (hx : samp.x < 65536) (hy : samp.y < 65536) (hl : samp.lux < 65536) :
    (eyes_format samp).length ≤ 39 := by
  have ht : to_u64 samp.ts / 1000000 < 10 ^ (13 + 1) := by
    have : to_u64 samp.ts < 18446744073709551616 := by
      unfold to_u64
      omega
    omega
  have h1 := fmt_u_length 13 _ ht
  have h2 := fmt_u_length 4 samp.x (by omega)
  have h3 := fmt_u_length 4 samp.y (by omega)
  have h4 := fmt_u_length 4 samp.lux (by omega)
  have h5 : (if samp.blink then "true" else "false").toList.length ≤ 5 := by
    cases samp.blink <;> decide
  simp only [eyes_format, List.length_append, List.length_singleton]
  omega

theorem eyes_read_sample_small (st : eyes_state) (samp : eyes_sample) (len : Nat)
    (umem : List Char) (fault : Nat)
    (hx : samp.x < 65536) (hy : samp.y < 65536) (hl : samp.lux < 65536)
    (hlen : len < (eyes_format samp).length) :
    (eyes_read_sample st samp len umem fault).1 = -EINVAL ∧
    (eyes_read_sample st samp len umem fault).2.2 = umem := by
  have hb := eyes_format_length_le samp hx hy hl
  have hs : snprintf EYES_BUF_SZ (eyes_format samp) = eyes_format samp := by
    unfold snprintf EYES_BUF_SZ
    exact List.take_of_length_le (by omega)
  unfold eyes_read_sample
  simp only [hs, strlen, hlen, if_true]
  exact ⟨trivial, trivial⟩

theorem generate_sample_u16 (sb : Bool) (rnd rnd2 : Nat) (now : Int) :
    (generate_sample sb rnd rnd2 now).x < 65536 ∧
    (generate_sample sb rnd rnd2 now).y < 65536 ∧
    (generate_sample sb rnd rnd2 now).lux < 65536 := by
  simp only [generate_sample, to_u16]
  omega

/-- C6: for every eyes sample (16-bit `x`, `y`, `lux`) and every caller
length `len` smaller than the length of the formatted line, the read body
returns `-EINVAL` and the caller's memory is unchanged; the same holds for
`eyes_read` itself whatever random words and clock value it draws. -/
theorem C6_eyes_read_buffer_too_small (st : eyes_state) (len : Nat) (umem : List Char)
    (fault : Nat) :
    (∀ samp : eyes_sample, samp.x < 65536 → samp.y < 65536 → samp.lux < 65536 →
      len < (eyes_format samp).length →
      (eyes_read_sample st samp len umem fault).1 = -EINVAL ∧
      (eyes_read_sample st samp len umem fault).2.2 = umem) ∧
    (∀ (rnd rnd2 : Nat) (now : Int),
      len < (eyes_format (generate_sample st.simulate_blink rnd rnd2 now)).length →
      (eyes_read st rnd rnd2 now len umem fault).1 = -EINVAL ∧
      (eyes_read st rnd rnd2 now len umem fault).2.2 = umem) := by
  constructor
  · intro samp hx hy hl hlen
    exact eyes_read_sample_small st samp len umem fault hx hy hl hlen
  · intro rnd rnd2 now hlen
    obtain ⟨hx, hy, hl⟩ := generate_sample_u16 st.simulate_blink rnd rnd2 now
    exact eyes_read_sample_small st _ len umem fault hx hy hl hlen

/-- Witness for C6: a 24-byte line read with `len = 3`. -/
theorem C6_eyes_read_buffer_too_small_witness :
    (3 < (eyes_format ⟨1920, 1080, 10000, false, 5000000⟩).length) ∧
    (eyes_read_sample eyes_loaded ⟨1920, 1080, 10000, false, 5000000⟩ 3
      "abcd".toList 0).1 = -EINVAL ∧
    (eyes_read_sample eyes_loaded ⟨1920, 1080, 10000, false, 5000000⟩ 3
      "abcd".toList 0).2.2 = "abcd".toList :=
  ⟨by decide,
   (C6_eyes_read_buffer_too_small eyes_loaded 3 "abcd".toList 0).1
     ⟨1920, 1080, 10000, false, 5000000⟩ (by decide) (by decide) (by decide) (by decide)⟩

/-- The result of `neural_read` does not depend on the caller's `len`. -/
theorem neural_read_ignores_len (st : neural_state) (noise : Int) (len len2 : Nat)
    (umem : List Char) (fault : Nat) :
    neural_read st noise len umem fault = neural_read st noise len2 umem fault := rfl

/-- C7, failing input: with `noise = 0` the formatted line has 55 bytes; a
read with `len = 8` into memory holding eight `A`s returns 55, not an error,
and has overwritten the caller's eight bytes (and 47 bytes beyond them). -/
theorem C7_neural_read_overruns_small_buffer :
    8 < (neural_format (neural_microvolts 0)).length ∧
    (neural_read neural_loaded 0 8 "AAAAAAAA".toList 0).1 = 55 ∧
    (neural_read neural_loaded 0 8 "AAAAAAAA".toList 0).2.2 ≠ "AAAAAAAA".toList ∧
    (neural_read neural_loaded 0 8 "AAAAAAAA".toList 0).2.2 =
      neural_format (neural_microvolts 0) := by
  refine ⟨by decide, by decide, by decide, by decide⟩

/-! ## Write path -/

/-- C8: for every `n` with 1 <= n <= 4294967295 and every prior state, an
`eyes_write` (allocation and copy succeeding) of "interval=" followed by the
decimal numeral of `n` returns the length written and leaves
`sample_interval_ms = n` with `simulate_blink` (and everything else)
unchanged; and an `eyes_write` of "interval=0" leaves the state, hence
`sample_interval_ms`, as it was. -/
theorem C8_write_interval (st : eyes_state) (n : Nat) (h1 : 1 ≤ n) (h2 : n ≤ 4294967295) :
    eyes_write st ("interval=".toList ++ fmt_u n) true true =
      (((("interval=".toList ++ fmt_u n).length : Nat) : Int),
        ⟨st.eyes_mutex, n, st.simulate_blink, st.eyes_buffer⟩) ∧
    (eyes_write st ("interval=".toList ++ fmt_u n) true true).2.sample_interval_ms = n ∧
    (eyes_write st ("interval=".toList ++ fmt_u n) true true).2.simulate_blink =
      st.simulate_blink ∧
    eyes_write st "interval=0".toList true true = (10, st) := by
  have hn : n % 4294967296 = n := Nat.mod_eq_of_lt (by omega)
  have hmain : eyes_write st ("interval=".toList ++ fmt_u n) true true =
      (((("interval=".toList ++ fmt_u n).length : Nat) : Int),
        ⟨st.eyes_mutex, n, st.simulate_blink, st.eyes_buffer⟩) := by
    rw [fmt_u, toDigits_eq_dec, eyes_write_interval_dec, hn, if_pos (by omega)]
  have hz : "interval=0".toList = "interval=".toList ++ dec_numeral 0 := by
    rw [← toDigits_eq_dec]; decide
  refine ⟨hmain, by rw [hmain], by rw [hmain], ?_⟩
  rw [hz, eyes_write_interval_dec]
  simp [dec_numeral]

/-- Witness for C8 at `n = 250` on the load-time state. -/
theorem C8_write_interval_witness :
    (eyes_write eyes_loaded "interval=250".toList true true).2.sample_interval_ms = 250 ∧
    eyes_write eyes_loaded "interval=0".toList true true = (10, eyes_loaded) := by
  have h := C8_write_interval eyes_loaded 250 (by decide) (by decide)
  have ht : "interval=".toList ++ fmt_u 250 = "interval=250".toList := by decide
  rw [ht] at h
  exact ⟨h.2.1, h.2.2.2⟩

theorem eyes_writes_interval_pos (calls : List write_call) : ∀ st : eyes_state,
    0 < st.sample_interval_ms → 0 < (eyes_writes st calls).sample_interval_ms := by
  induction calls with
  | nil => intro st h; simpa [eyes_writes] using h
  | cons c cs ih =>
    intro st h
    have hstep := eyes_write_interval_pos st c.text c.alloc_ok c.copy_ok h
    simpa [eyes_writes] using ih _ hstep

/-- C9: starting from the load-time configuration (`sample_interval_ms =
100`), after every finite sequence of `eyes_write` calls with arbitrary bytes
(and arbitrary allocation or copy failures) `sample_interval_ms` is greater
than 0; in particular a numeral that wraps to 0 in 32 bits,
"interval=4294967296", leaves the value 100. -/
theorem C9_interval_always_positive (calls : List write_call) :
    0 < (eyes_writes eyes_loaded calls).sample_interval_ms ∧
    (eyes_writes eyes_loaded [⟨"interval=4294967296".toList, true, true⟩]).sample_interval_ms
      = 100 := by
  refine ⟨eyes_writes_interval_pos calls eyes_loaded (by decide), by decide⟩

/-- C10: for every `v` with 0 <= v <= 4294967295 and every prior state, an
`eyes_write` (allocation and copy succeeding) of "blink=" followed by the
decimal numeral of `v` returns the length written, sets `simulate_blink` to
true when `v` is nonzero and to false when it is zero, and leaves
`sample_interval_ms` (and everything else) unchanged. -/
theorem C10_write_blink (st : eyes_state) (v : Nat) (h : v ≤ 4294967295) :
    eyes_write st ("blink=".toList ++ fmt_u v) true true =
      (((("blink=".toList ++ fmt_u v).length : Nat) : Int),
        ⟨st.eyes_mutex, st.sample_interval_ms, decide (v ≠ 0), st.eyes_buffer⟩) ∧
    ((eyes_write st ("blink=".toList ++ fmt_u v) true true).2.simulate_blink = true ↔ v ≠ 0) ∧
    (eyes_write st ("blink=".toList ++ fmt_u v) true true).2.sample_interval_ms =
      st.sample_interval_ms := by
  have hv : v % 4294967296 = v := Nat.mod_eq_of_lt (by omega)
  have hmain : eyes_write st ("blink=".toList ++ fmt_u v) true true =
      (((("blink=".toList ++ fmt_u v).length : Nat) : Int),
        ⟨st.eyes_mutex, st.sample_interval_ms, decide (v ≠ 0), st.eyes_buffer⟩) := by
    rw [fmt_u, toDigits_eq_dec, eyes_write_blink_dec, hv]
  refine ⟨hmain, ?_, by rw [hmain]⟩
  rw [hmain]
  simp

/-- Witness for C10 at `v = 0` and at `v = 4294967295`. -/
theorem C10_write_blink_witness :
    (eyes_write eyes_loaded "blink=0".toList true true).2.simulate_blink = false ∧
    (eyes_write ⟨false, 100, false, []⟩ "blink=4294967295".toList true true).2.simulate_blink
      = true := by
  have h0 := (C10_write_blink eyes_loaded 0 (by decide)).1
  have h1 := (C10_write_blink ⟨false, 100, false, []⟩ 4294967295 (by decide)).1
  have t0 : "blink=".toList ++ fmt_u 0 = "blink=0".toList := by decide
  have t1 : "blink=".toList ++ fmt_u 4294967295 = "blink=4294967295".toList := by decide
  rw [t0] at h0
  rw [t1] at h1
  rw [h0, h1]
  exact ⟨by decide, by decide⟩

/-! ## Substring search and the two keys of `eyes_write` -/

theorem begins_with_iff (s lit : List Char) :
    begins_with s lit = true ↔ ∃ tail, s = lit ++ tail := by
  unfold begins_with
  rw [beq_iff_eq]
  constructor
  · intro h
    have h1 := List.take_append_drop lit.length s
    rw [h] at h1
    exact ⟨s.drop lit.length, h1.symm⟩
  · rintro ⟨tail, rfl⟩
    simp

theorem has_substr_iff (s lit : List Char) :
    has_substr s lit = true ↔ ∃ pre post, s = pre ++ lit ++ post := by
  induction s with
  | nil =>
    simp only [has_substr, begins_with_iff]
    constructor
    · rintro ⟨tail, h⟩
      exact ⟨[], tail, by simpa using h⟩
    · rintro ⟨pre, post, h⟩
      have h1 : pre ++ lit ++ post = [] := h.symm
      simp only [List.append_eq_nil] at h1
      exact ⟨[], by simp [h1.1.2]⟩
  | cons c cs ih =>
    simp only [has_substr, Bool.or_eq_true, begins_with_iff, ih]
    constructor
    · rintro (⟨tail, h⟩ | ⟨pre, post, h⟩)
      · exact ⟨[], tail, by simpa using h⟩
      · exact ⟨c :: pre, post, by simp [h]⟩
    · rintro ⟨pre, post, h⟩
      cases pre with
      | nil => exact Or.inl ⟨post, by simpa using h⟩
      | cons p ps =>
        simp only [List.cons_append, List.cons.injEq] at h
        exact Or.inr ⟨ps, post, h.2⟩

theorem has_substr_short (lit : List Char) : ∀ s : List Char, s.length < lit.length →
    has_substr s lit = false := by
  intro s
  induction s with
  | nil =>
    intro h
    cases lit with
    | nil => simp at h
    | cons l ls => simp [has_substr, begins_with]
  | cons c cs ih =>
    intro h
    have h1 : begins_with (c :: cs) lit = false := by
      unfold begins_with
      rw [beq_eq_false_iff_ne]
      intro he
      have := congrArg List.length he
      simp only [List.length_take, List.length_cons] at this h
      omega
    have h2 := ih (by simp only [List.length_cons] at h; omega)
    simp [has_substr, h1, h2]

theorem strnstr_loop_isSome (lit : List Char) (hlit : lit ≠ []) :
    ∀ (len : Nat) (s1 : List Char) (off : Nat),
      (strnstr_loop lit len s1 off).isSome = has_substr (s1.take len) lit := by
  have hl : 0 < lit.length := List.length_pos.mpr hlit
  intro len
  induction len with
  | zero =>
    intro s1 off
    rw [List.take_zero, has_substr_short lit [] (by simpa using hl)]
    simp [strnstr_loop]
  | succ len ih =>
    intro s1 off
    cases s1 with
    | nil =>
      rw [List.take_nil, has_substr_short lit [] (by simpa using hl)]
      unfold strnstr_loop
      have hne : ¬ ([] : List Char) = lit := fun h => hlit h.symm
      have hrec := ih [] (off + 1)
      rw [List.take_nil, has_substr_short lit [] (by simpa using hl)] at hrec
      simp only [List.take_nil, List.tail_nil, hne, if_false]
      split
      · exact hrec
      · rfl
    | cons c cs =>
      unfold strnstr_loop
      by_cases hle : lit.length ≤ len + 1
      · have htake : ((c :: cs).take (len + 1)).take lit.length = (c :: cs).take lit.length := by
          rw [List.take_take, Nat.min_eq_left hle]
        rw [if_pos hle]
        by_cases hm : (c :: cs).take lit.length = lit
        · rw [if_pos hm]
          have : begins_with ((c :: cs).take (len + 1)) lit = true := by
            unfold begins_with
            rw [htake, beq_iff_eq]
            exact hm
          simp only [List.take_succ_cons] at this ⊢
          simp [has_substr, this]
        · rw [if_neg hm]
          have : begins_with ((c :: cs).take (len + 1)) lit = false := by
            unfold begins_with
            rw [htake, beq_eq_false_iff_ne]
            exact hm
          simp only [List.take_succ_cons] at this ⊢
          simp only [has_substr, this, Bool.false_or, List.tail_cons]
          exact ih cs (off + 1)
      · rw [if_neg hle]
        rw [has_substr_short lit _ (by
          simp only [List.length_take, List.length_cons]; omega)]
        rfl

theorem strnstr_isSome (text lit : List Char) (hlit : lit ≠ []) :
    (strnstr (text ++ [NUL]) lit text.length).isSome = has_substr text lit := by
  have hl : lit.length ≠ 0 := by
    intro h; exact hlit (List.length_eq_zero.mp h)
  unfold strnstr
  rw [if_neg hl, strnstr_loop_isSome lit hlit]
  simp

theorem match_lit_some (lit : List Char) : ∀ (s rest : List Char),
    match_lit lit s = some rest → s = lit ++ rest := by
  induction lit with
  | nil => intro s rest h; simpa [match_lit] using h
  | cons f fs ih =>
    intro s rest h
    cases s with
    | nil => simp [match_lit] at h
    | cons c cs =>
      simp only [match_lit] at h
      split at h
      · rename_i hfc
        rw [← hfc, ih cs rest h]
        rfl
      · cases h

theorem cstr_append_nul (text : List Char) : cstr (text ++ [NUL]) = cstr text := by
  unfold cstr
  induction text with
  | nil => simp [List.takeWhile]
  | cons c cs ih =>
    simp only [List.cons_append, List.takeWhile_cons]
    split
    · rw [ih]
    · rfl

theorem sscanf_lit_u_no_key (text lit : List Char) (v0 : Nat)
    (h : begins_with text lit = false) :
    sscanf_lit_u (text ++ [NUL]) lit v0 = (0, v0) := by
  unfold sscanf_lit_u
  cases hm : match_lit lit (cstr (text ++ [NUL])) with
  | none => rfl
  | some rest =>
    exfalso
    have h1 := match_lit_some lit _ rest hm
    rw [cstr_append_nul] at h1
    have h2 : text = lit ++ (rest ++ text.dropWhile (fun c => c != NUL)) := by
      have := (List.takeWhile_append_dropWhile (fun c => c != NUL) text).symm
      unfold cstr at h1
      rw [h1] at this
      simpa using this
    have : begins_with text lit = true := (begins_with_iff text lit).mpr ⟨_, h2⟩
    rw [h] at this
    cases this

theorem cstr_key_append (key value : List Char) (hk : ∀ c ∈ key, c ≠ NUL) :
    cstr (key ++ value) = key ++ cstr value := by
  unfold cstr
  induction key with
  | nil => rfl
  | cons k ks ih =>
    have hk0 : (k != NUL) = true := by simpa using hk k (List.mem_cons_self _ _)
    simp only [List.cons_append, List.takeWhile_cons, hk0, if_true]
    rw [ih (fun c hc => hk c (List.mem_cons_of_mem _ hc))]

theorem scan_u_no_digit (value : List Char) (h : leading_digit value = false) :
    scan_u (cstr value) = none := by
  unfold leading_digit at h
  unfold scan_u
  cases hc : cstr value with
  | nil => rfl
  | cons a as =>
    rw [hc] at h
    simp only
    cases hs : skip_spaces (a :: as) with
    | nil => rfl
    | cons d rest =>
      rw [hs] at h
      simp only at h
      simp [h]

theorem sscanf_lit_u_no_digit (key value : List Char) (v0 : Nat)
    (hk : ∀ c ∈ key, c ≠ NUL) (h : leading_digit value = false) :
    sscanf_lit_u (key ++ value ++ [NUL]) key v0 = (0, v0) := by
  unfold sscanf_lit_u
  rw [cstr_append_nul, cstr_key_append key value hk, match_lit_append]
  simp only [Option.some_bind, scan_u_no_digit value h]

theorem eyes_write_count_zero (st : eyes_state) (text : List Char)
    (h1 : (sscanf_lit_u (text ++ [NUL]) "interval=".toList 0).1 = 0)
    (h2 : (sscanf_lit_u (text ++ [NUL]) "blink=".toList 0).1 = 0) :
    eyes_write st text true true = ((text.length : Int), st) := by
  unfold eyes_write
  simp only [Bool.not_true, Bool.false_eq_true, if_false, h1, h2]
  split
  · simp
  · split
    · simp
    · rfl

theorem eyes_write_has_interval (st : eyes_state) (text : List Char)
    (h : has_substr text "interval=".toList = true) :
    eyes_write st text true true =
      ((text.length : Int),
        if (sscanf_lit_u (text ++ [NUL]) "interval=".toList 0).1 = 1 ∧
            (sscanf_lit_u (text ++ [NUL]) "interval=".toList 0).2 > 0 then
          ⟨st.eyes_mutex, (sscanf_lit_u (text ++ [NUL]) "interval=".toList 0).2,
            st.simulate_blink, st.eyes_buffer⟩
        else st) := by
  have hs := strnstr_isSome text "interval=".toList (by decide)
  rw [h] at hs
  unfold eyes_write
  simp only [Bool.not_true, Bool.false_eq_true, if_false, hs, if_true]
  split <;> rfl

theorem eyes_write_no_key (st : eyes_state) (text : List Char)
    (h1 : has_substr text "interval=".toList = false)
    (h2 : has_substr text "blink=".toList = false) :
    eyes_write st text true true = ((text.length : Int), st) := by
  have hs1 := strnstr_isSome text "interval=".toList (by decide)
  have hs2 := strnstr_isSome text "blink=".toList (by decide)
  rw [h1] at hs1
  rw [h2] at hs2
  unfold eyes_write
  simp only [Bool.not_true, Bool.false_eq_true, if_false, hs1, hs2]

theorem eyes_call_step_blink (st : eyes_state) (c : eyes_call)
    (h : ∀ text a b, c = eyes_call.c_write text a b →
      (eyes_write st text a b).2.simulate_blink = st.simulate_blink) :
    (eyes_call_step st c).simulate_blink = st.simulate_blink := by
  cases c with
  | c_open =>
    simp only [eyes_call_step, eyes_open]
    split <;> rfl
  | c_release => rfl
  | c_read rnd rnd2 now len umem fault =>
    simp only [eyes_call_step, eyes_read, eyes_read_sample]
    split
    · rfl
    · split <;> rfl
  | c_write text a b => exact h text a b rfl

theorem eyes_calls_blink (calls : List eyes_call) : ∀ st : eyes_state,
    blink_kept st calls = true →
    (eyes_calls st calls).simulate_blink = st.simulate_blink := by
  induction calls with
  | nil => intro st _; rfl
  | cons c cs ih =>
    intro st h
    have hstep : (eyes_call_step st c).simulate_blink = st.simulate_blink := by
      apply eyes_call_step_blink
      intro text a b hc
      subst hc
      simp only [blink_kept, Bool.and_eq_true, decide_eq_true_eq] at h
      exact h.1
    have hrest : blink_kept (eyes_call_step st c) cs = true := by
      cases c with
      | c_write text a b =>
        simp only [blink_kept, Bool.and_eq_true] at h
        exact h.2
      | c_open => simpa [blink_kept] using h
      | c_release => simpa [blink_kept] using h
      | c_read rnd rnd2 now len umem fault => simpa [blink_kept] using h
    have := ih (eyes_call_step st c) hrest
    simp only [eyes_calls, List.foldl_cons] at this ⊢
    rw [this, hstep]

theorem eyes_write_blink_zero (st : eyes_state) :
    eyes_write st "blink=0".toList true true =
      (7, ⟨st.eyes_mutex, st.sample_interval_ms, false, st.eyes_buffer⟩) := by
  have hz : "blink=0".toList = "blink=".toList ++ dec_numeral 0 := by
    rw [← toDigits_eq_dec]; decide
  rw [hz, eyes_write_blink_dec]
  simp [dec_numeral]

/-! ## Write path: precedence, unknown text and malformed values -/

/-- C11: after an `eyes_write` of "blink=0" (on any prior state), and after
any further sequence of opens, releases, reads and writes in which no write
changes `simulate_blink`, every sample `generate_sample` produces has
`blink = false`, whatever the random words and the clock. -/
theorem C11_blink_zero_samples_never_blink (st : eyes_state) (calls : List eyes_call)
    (h : blink_kept (eyes_write st "blink=0".toList true true).2 calls = true)
    (rnd rnd2 : Nat) (now : Int) :
    (eyes_write st "blink=0".toList true true).2.simulate_blink = false ∧
    (generate_sample (eyes_calls (eyes_write st "blink=0".toList true true).2
      calls).simulate_blink rnd rnd2 now).blink = false := by
  have h0 : (eyes_write st "blink=0".toList true true).2.simulate_blink = false := by
    rw [eyes_write_blink_zero]
  have h1 := eyes_calls_blink calls _ h
  rw [h0] at h1
  refine ⟨h0, ?_⟩
  rw [h1]
  rfl

/-- Witness for C11: blink word 0 (which blinks when the simulation is on),
after a read, an interval write and a release. -/
theorem C11_blink_zero_samples_never_blink_witness :
    (generate_sample true 5 0 0).blink = true ∧
    (generate_sample (eyes_calls (eyes_write eyes_loaded "blink=0".toList true true).2
      [eyes_call.c_read 5 0 0 64 [] 0, eyes_call.c_write "interval=5".toList true true,
        eyes_call.c_release]).simulate_blink 5 0 0).blink = false :=
  ⟨by decide,
   (C11_blink_zero_samples_never_blink eyes_loaded
      [eyes_call.c_read 5 0 0 64 [] 0, eyes_call.c_write "interval=5".toList true true,
        eyes_call.c_release] (by decide) 5 0 0).2⟩

/-- C12: for every write text that contains neither "interval=" nor "blink="
as a substring, `eyes_write` (allocation and copy succeeding) returns the full
length of the write and leaves the driver state, in particular
`sample_interval_ms` and `simulate_blink`, unchanged. -/
theorem C12_unknown_text_accepted (st : eyes_state) (text : List Char)
    (h1 : has_substr text "interval=".toList = false)
    (h2 : has_substr text "blink=".toList = false) :
    (eyes_write st text true true).1 = (text.length : Int) ∧
    (eyes_write st text true true).2.sample_interval_ms = st.sample_interval_ms ∧
    (eyes_write st text true true).2.simulate_blink = st.simulate_blink ∧
    (eyes_write st text true true).2 = st := by
  rw [eyes_write_no_key st text h1 h2]
  exact ⟨rfl, rfl, rfl, rfl⟩

/-- Witness for C12: the text "hello\n". -/
theorem C12_unknown_text_accepted_witness :
    (eyes_write eyes_loaded "hello\n".toList true true).1 = 6 ∧
    (eyes_write eyes_loaded "hello\n".toList true true).2 = eyes_loaded := by
  have h := C12_unknown_text_accepted eyes_loaded "hello\n".toList (by decide) (by decide)
  exact ⟨h.1, h.2.2.2⟩

/-- C14, counterexample: "interval=12abc" is not a decimal integer in its
entirety, yet the write changes `sample_interval_ms` from 100 to 12; and
"blink=0x" turns `simulate_blink` off. -/
theorem C14_digit_run_is_applied :
    (eyes_write eyes_loaded "interval=12abc".toList true true).2.sample_interval_ms = 12 ∧
    (eyes_write eyes_loaded "interval=12abc".toList true true).2.sample_interval_ms ≠
      eyes_loaded.sample_interval_ms ∧
    (eyes_write eyes_loaded "blink=0x".toList true true).2.simulate_blink ≠
      eyes_loaded.simulate_blink := by
  refine ⟨by decide, by decide, by decide⟩

/-- C14 (amended): for every `eyes_write` (allocation and copy succeeding)
whose text is "interval=" or "blink=" followed by a value that, after optional
leading white space, does not start with a decimal digit (for example
"interval=abc" or an empty value), the driver state is not mutated and the
write returns its full length. -/
theorem C14_value_without_leading_digit (st : eyes_state) (key value : List Char)
    (hkey : key = "interval=".toList ∨ key = "blink=".toList)
    (h : leading_digit value = false) :
    eyes_write st (key ++ value) true true = (((key ++ value).length : Int), st) ∧
    (eyes_write st (key ++ value) true true).2.sample_interval_ms = st.sample_interval_ms ∧
    (eyes_write st (key ++ value) true true).2.simulate_blink = st.simulate_blink := by
  have hmain : eyes_write st (key ++ value) true true = (((key ++ value).length : Int), st) := by
    rcases hkey with hk | hk
    · apply eyes_write_count_zero
      · rw [hk, sscanf_lit_u_no_digit _ value 0 (by decide) h]
      · rw [hk, sscanf_lit_u_no_key _ _ 0 (by
          have : "interval=".toList = 'i' :: "nterval=".toList := by decide
          rw [this]
          simp [begins_with])]
    · apply eyes_write_count_zero
      · rw [hk, sscanf_lit_u_no_key _ _ 0 (by
          have : "blink=".toList = 'b' :: "link=".toList := by decide
          rw [this]
          simp [begins_with])]
      · rw [hk, sscanf_lit_u_no_digit _ value 0 (by decide) h]
  rw [hmain]
  exact ⟨rfl, rfl, rfl⟩

/-- Witness for C14 (amended): "interval=abc". -/
theorem C14_value_without_leading_digit_witness :
    leading_digit "abc".toList = false ∧
    eyes_write eyes_loaded "interval=abc".toList true true = (12, eyes_loaded) := by
  have h := (C14_value_without_leading_digit eyes_loaded "interval=".toList "abc".toList
    (Or.inl rfl) (by decide)).1
  have ht : "interval=".toList ++ "abc".toList = "interval=abc".toList := by decide
  rw [ht] at h
  exact ⟨by decide, h⟩

/-- C20: for every write text that contains "interval=" anywhere (allocation
and copy succeeding), the write returns its full length and leaves
`simulate_blink` unchanged; and when the text does not begin with
"interval=", `sample_interval_ms` is unchanged too: the whole state is as
before. -/
theorem C20_interval_test_takes_precedence (st : eyes_state) (text : List Char)
    (h : has_substr text "interval=".toList = true) :
    (eyes_write st text true true).1 = (text.length : Int) ∧
    (eyes_write st text true true).2.simulate_blink = st.simulate_blink ∧
    (begins_with text "interval=".toList = false →
      (eyes_write st text true true).2.sample_interval_ms = st.sample_interval_ms ∧
      eyes_write st text true true = ((text.length : Int), st)) := by
  have hw := eyes_write_has_interval st text h
  refine ⟨?_, ?_, ?_⟩
  · rw [hw]
  · rw [hw]
    simp only
    split <;> rfl
  · intro hb
    have hz := sscanf_lit_u_no_key text "interval=".toList 0 hb
    rw [hw, hz]
    simp

/-- Witness for C20: a well-formed "blink=0" followed by "interval=5" mutates
nothing. -/
theorem C20_interval_test_takes_precedence_witness :
    has_substr "blink=0 interval=5".toList "interval=".toList = true ∧
    begins_with "blink=0 interval=5".toList "interval=".toList = false ∧
    eyes_write eyes_loaded "blink=0 interval=5".toList true true = (18, eyes_loaded) := by
  have h := C20_interval_test_takes_precedence eyes_loaded "blink=0 interval=5".toList
    (by decide)
  exact ⟨by decide, by decide, (h.2.2 (by decide)).2⟩

/-! ## `neural_write`, the read protocol, the blink count and module load -/

/-- C13, counterexample: a write of 64 bytes `a` (one more than the local
buffer keeps) is not rejected: it returns 64, and `neural_buffer` holds only
63 of the bytes. -/
theorem C13_long_write_truncated_and_accepted :
    (neural_write neural_loaded (List.replicate 64 'a') true).1 = 64 ∧
    (neural_write neural_loaded (List.replicate 64 'a') true).2.neural_buffer =
      "[neural_driver] Comando neural processado: ".toList ++ List.replicate 63 'a' ++
        "\n".toList := by
  refine ⟨by decide, by decide⟩

/-- C13 (amended): for every `neural_write` whose length exceeds 63 (the copy
from the caller succeeding), the write is accepted: it returns `len`, and of
the input only the first 63 bytes (up to their first NUL) reach the text
formatted into `neural_buffer`. -/
theorem C13_long_write_returns_len (st : neural_state) (text : List Char)
    (h : 63 < text.length) :
    (neural_write st text true).1 = (text.length : Int) ∧
    (neural_write st text true).2.neural_buffer =
      snprintf 256 ("[neural_driver] Comando neural processado: ".toList ++
        cstr (text.take 63) ++ "\n".toList) := by
  have hm : min text.length (64 - 1) = 63 := by omega
  simp only [neural_write, hm, Bool.not_true, Bool.false_eq_true, if_false, cstr_append_nul]
  exact ⟨trivial, trivial⟩

/-- Witness for C13 (amended): 64 bytes `a`. -/
theorem C13_long_write_returns_len_witness :
    63 < (List.replicate 64 'a').length ∧
    (neural_write neural_loaded (List.replicate 64 'a') true).1 = 64 :=
  ⟨by decide, by
    have h := (C13_long_write_returns_len neural_loaded (List.replicate 64 'a') (by decide)).1
    simpa using h⟩

theorem repr_data (n : Nat) : (Nat.repr n).data = fmt_u n := rfl

theorem eyes_format_eq_spec (samp : eyes_sample) (h0 : 0 ≤ samp.ts)
    (h1 : samp.ts < 9223372036854775808) :
    eyes_format samp = eyes_line_spec samp.ts.toNat samp.x samp.y samp.lux samp.blink := by
  have ht : to_u64 samp.ts = samp.ts.toNat := by
    unfold to_u64
    omega
  simp [eyes_format, eyes_line_spec, repr_data, ht, List.intercalate, List.intersperse]

theorem fmt_u_count (n : Nat) : (fmt_u n).count ' ' = 0 ∧ (fmt_u n).count '\n' = 0 := by
  have hd : ∀ c ∈ fmt_u n, isdigit c = true := by
    rw [fmt_u, toDigits_eq_dec]
    exact dec_all_isdigit n
  constructor
  · rw [List.count_eq_zero]
    intro hm
    have := hd _ hm
    revert this; decide
  · rw [List.count_eq_zero]
    intro hm
    have := hd _ hm
    revert this; decide

theorem eyes_format_shape (samp : eyes_sample) :
    (eyes_format samp).count ' ' = 4 ∧ (eyes_format samp).count '\n' = 1 ∧
    (eyes_format samp).getLast? = some '\n' := by
  have c1 := fmt_u_count (to_u64 samp.ts / 1000000)
  have c2 := fmt_u_count samp.x
  have c3 := fmt_u_count samp.y
  have c4 := fmt_u_count samp.lux
  have c5 : (if samp.blink then "true" else "false").toList.count ' ' = 0 ∧
      (if samp.blink then "true" else "false").toList.count '\n' = 0 := by
    cases samp.blink <;> decide
  refine ⟨?_, ?_, ?_⟩
  · simp only [eyes_format, List.count_append, c1.1, c2.1, c3.1, c4.1, c5.1]
    decide
  · simp only [eyes_format, List.count_append, c1.2, c2.2, c3.2, c4.2, c5.2]
    decide
  · unfold eyes_format
    exact List.getLast?_concat _

/-- C15: for every eyes sample (16-bit `x`, `y`, `lux`, a non-negative
`ktime_t` in nanoseconds) and every caller length at least the length of the
line, `eyes_read` (the copy succeeding) puts at the caller's buffer exactly
the line the read protocol describes, leaves it in `eyes_buffer`, and returns
its byte length; the line has exactly four spaces and one newline, its last
byte. -/
theorem C15_eyes_read_line_format (st : eyes_state) (samp : eyes_sample) (len : Nat)
    (umem : List Char)
    (hx : samp.x < 65536) (hy : samp.y < 65536) (hl : samp.lux < 65536)
    (h0 : 0 ≤ samp.ts) (h1 : samp.ts < 9223372036854775808)
    (hlen : (eyes_line_spec samp.ts.toNat samp.x samp.y samp.lux samp.blink).length ≤ len) :
    (eyes_read_sample st samp len umem 0).1 =
      ((eyes_line_spec samp.ts.toNat samp.x samp.y samp.lux samp.blink).length : Int) ∧
    (eyes_read_sample st samp len umem 0).2.2 =
      eyes_line_spec samp.ts.toNat samp.x samp.y samp.lux samp.blink ++
        umem.drop (eyes_line_spec samp.ts.toNat samp.x samp.y samp.lux samp.blink).length ∧
    (eyes_read_sample st samp len umem 0).2.1.eyes_buffer =
      eyes_line_spec samp.ts.toNat samp.x samp.y samp.lux samp.blink ∧
    (eyes_line_spec samp.ts.toNat samp.x samp.y samp.lux samp.blink).count ' ' = 4 ∧
    (eyes_line_spec samp.ts.toNat samp.x samp.y samp.lux samp.blink).count '\n' = 1 ∧
    (eyes_line_spec samp.ts.toNat samp.x samp.y samp.lux samp.blink).getLast? = some '\n' := by
  have heq := eyes_format_eq_spec samp h0 h1
  have hb := eyes_format_length_le samp hx hy hl
  have hshape := eyes_format_shape samp
  have hs : snprintf EYES_BUF_SZ (eyes_format samp) = eyes_format samp := by
    unfold snprintf EYES_BUF_SZ
    exact List.take_of_length_le (by omega)
  rw [← heq] at hlen ⊢
  have hnot : ¬ len < (eyes_format samp).length := by omega
  refine ⟨?_, ?_, ?_, hshape⟩
  · simp [eyes_read_sample, hs, strlen, hnot, copy_to_user]
  · simp [eyes_read_sample, hs, strlen, hnot, copy_to_user]
  · simp only [eyes_read_sample, hs, strlen, hnot, if_false]
    split <;> rfl

/-- Witness for C15: the sample (512, 384, 120, blink) at 1617812345678 ms,
read into 64 bytes. -/
theorem C15_eyes_read_line_format_witness :
    (eyes_read_sample eyes_loaded ⟨512, 384, 120, true, 1617812345678000000⟩ 64
      (List.replicate 64 '.') 0).1 = 31 ∧
    eyes_line_spec 1617812345678000000 512 384 120 true =
      "1617812345678 512 384 120 true\n".toList := by
  have h := (C15_eyes_read_line_format eyes_loaded ⟨512, 384, 120, true, 1617812345678000000⟩
    64 (List.replicate 64 '.') (by decide) (by decide) (by decide) (by decide) (by decide)
    (by decide)).1
  exact ⟨by simpa using h, by decide⟩

theorem blink_count_succ (n : Nat) :
    blink_count (n + 1) = blink_count n + if n % 100 < 5 then 1 else 0 := by
  unfold blink_count
  rw [List.range_succ, List.countP_append]
  simp [generate_sample, List.countP_cons]

theorem blink_count_formula (n : Nat) : blink_count n = 5 * (n / 100) + min (n % 100) 5 := by
  induction n with
  | zero => rfl
  | succ n ih =>
    rw [blink_count_succ, ih]
    split <;> omega

/-- C16, counterexample: the values of the 32-bit blink word that give
`blink = true` are not a twentieth of the 2^32 values. -/
theorem C16_blink_fraction_not_one_twentieth :
    20 * blink_count 4294967296 ≠ 4294967296 := by
  rw [blink_count_formula]
  decide

/-- C16 (amended): with `simulate_blink` enabled, `blink` is true exactly when
the blink word is below 5 modulo 100; of the 2^32 values of the word exactly
214748365 give `blink = true`, one more than the 214748364 a fraction of at
most 1/20 allows, because 2^32 is not a multiple of 100. -/
theorem C16_blink_count_exact :
    (∀ (rnd rnd2 : Nat) (now : Int),
      (generate_sample true rnd rnd2 now).blink = decide (rnd2 % 100 < 5)) ∧
    blink_count 4294967296 = 214748365 ∧
    20 * 214748364 < 4294967296 ∧ 4294967296 < 20 * 214748365 := by
  refine ⟨fun _ _ _ => rfl, ?_, by decide, by decide⟩
  rw [blink_count_formula]
  decide

theorem eyes_init_result (live : List kres) (major : Int) (cls dev : kptr) :
    (major < 0 → eyes_init live major cls dev = (major, live)) ∧
    (∀ e, 0 ≤ major → cls = kptr.err_ptr e → eyes_init live major cls dev = (e, live)) ∧
    (∀ e, 0 ≤ major → cls = kptr.valid → dev = kptr.err_ptr e →
      eyes_init live major cls dev = (e, live)) ∧
    (0 ≤ major → cls = kptr.valid → dev = kptr.valid →
      eyes_init live major cls dev =
        (0, kres.kdevice :: kres.kclass :: kres.chrdev :: live)) := by
  refine ⟨?_, ?_, ?_, ?_⟩
  · intro h
    simp [eyes_init, h]
  · intro e h hc
    have : ¬ major < 0 := by omega
    simp [eyes_init, this, hc]
  · intro e h hc hd
    have : ¬ major < 0 := by omega
    simp [eyes_init, this, hc, hd]
  · intro h hc hd
    have : ¬ major < 0 := by omega
    simp [eyes_init, this, hc, hd]

theorem neural_init_result (live : List kres) (major : Int) (cls dev : kptr) :
    (major < 0 → neural_init live major cls dev = (major, live)) ∧
    (∀ e, 0 ≤ major → cls = kptr.err_ptr e → neural_init live major cls dev = (e, live)) ∧
    (∀ e, 0 ≤ major → cls = kptr.valid → dev = kptr.err_ptr e →
      neural_init live major cls dev = (e, live)) ∧
    (0 ≤ major → cls = kptr.valid → dev = kptr.valid →
      neural_init live major cls dev =
        (0, kres.kdevice :: kres.kclass :: kres.chrdev :: live)) := by
  refine ⟨?_, ?_, ?_, ?_⟩
  · intro h
    simp [neural_init, h]
  · intro e h hc
    have : ¬ major < 0 := by omega
    simp [neural_init, this, hc]
  · intro e h hc hd
    have : ¬ major < 0 := by omega
    simp [neural_init, this, hc, hd]
  · intro h hc hd
    have : ¬ major < 0 := by omega
    simp [neural_init, this, hc, hd]

/-- C17: for `eyes_init`, `neural_init` and `ln_touch_init`, whichever step
fails, the routine returns that step's error and the resources held are
exactly those held before the call; when no step fails the routine returns 0
and holds every resource it acquired. -/
theorem C17_load_all_or_nothing (live : List kres) :
    (∀ (major : Int) (cls dev : kptr),
      (major < 0 → eyes_init live major cls dev = (major, live)) ∧
      (∀ e, 0 ≤ major → cls = kptr.err_ptr e → eyes_init live major cls dev = (e, live)) ∧
      (∀ e, 0 ≤ major → cls = kptr.valid → dev = kptr.err_ptr e →
        eyes_init live major cls dev = (e, live)) ∧
      (0 ≤ major → cls = kptr.valid → dev = kptr.valid →
        eyes_init live major cls dev =
          (0, kres.kdevice :: kres.kclass :: kres.chrdev :: live))) ∧
    (∀ (major : Int) (cls dev : kptr),
      (major < 0 → neural_init live major cls dev = (major, live)) ∧
      (∀ e, 0 ≤ major → cls = kptr.err_ptr e → neural_init live major cls dev = (e, live)) ∧
      (∀ e, 0 ≤ major → cls = kptr.valid → dev = kptr.err_ptr e →
        neural_init live major cls dev = (e, live)) ∧
      (0 ≤ major → cls = kptr.valid → dev = kptr.valid →
        neural_init live major cls dev =
          (0, kres.kdevice :: kres.kclass :: kres.chrdev :: live))) ∧
    (∀ (input_ok : Bool) (ret : Int),
      ln_touch_init live false input_ok ret = (-ENOMEM, live)) ∧
    (∀ ret : Int, ln_touch_init live true false ret = (-ENOMEM, live)) ∧
    (∀ ret : Int, ret ≠ 0 → ln_touch_init live true true ret = (ret, live)) ∧
    ln_touch_init live true true 0 =
      (0, kres.event_timer :: kres.input_registered :: kres.input_dev :: kres.ts_mem :: live) := by
  refine ⟨fun major cls dev => eyes_init_result live major cls dev,
    fun major cls dev => neural_init_result live major cls dev, ?_, ?_, ?_, ?_⟩
  · intro input_ok ret
    simp [ln_touch_init]
  · intro ret
    simp [ln_touch_init]
  · intro ret h
    simp [ln_touch_init, h]
  · simp [ln_touch_init]

/-- Witness for C17: from nothing held, `device_create` failing with -12 in
`eyes_init`, `class_create` failing with -17 in `neural_init`, and
`input_register_device` failing with -22 in `ln_touch_init`. -/
theorem C17_load_all_or_nothing_witness :
    eyes_init [] 240 kptr.valid (kptr.err_ptr (-12)) = (-12, []) ∧
    neural_init [] 241 (kptr.err_ptr (-17)) kptr.valid = (-17, []) ∧
    ln_touch_init [] true true (-22) = (-22, []) :=
  ⟨((C17_load_all_or_nothing []).1 240 kptr.valid (kptr.err_ptr (-12))).2.2.1 (-12)
      (by decide) rfl rfl,
   ((C17_load_all_or_nothing []).2.1 241 (kptr.err_ptr (-17)) kptr.valid).2.1 (-17)
      (by decide) rfl,
   (C17_load_all_or_nothing []).2.2.2.2.1 (-22) (by decide)⟩

/-! ## `Censor::filter` and `run_cmd` -/

/-- C18, failing input: when the entries are visited in the order boboca,
doido, palavrão, burro, idiota (a permutation of the dictionary), the input
"burroido" is returned as "distraídoido", which contains the dictionary word
"doido"; in the order of the initializer list the same happens to
"bobocaido", returned as "engraçadoido". -/
theorem C18_filter_output_contains_doido :
    List.Perm
      [("boboca".toList, "engra\xc3\xa7ado".toList),
       ("doido".toList, "exc\xc3\xaantrico".toList),
       ("palavr\xc3\xa3o".toList, "***".toList),
       ("burro".toList, "distra\xc3\xaddo".toList),
       ("idiota".toList, "pessoa confusa".toList)] dictionary ∧
    censor_filter
      [("boboca".toList, "engra\xc3\xa7ado".toList),
       ("doido".toList, "exc\xc3\xaantrico".toList),
       ("palavr\xc3\xa3o".toList, "***".toList),
       ("burro".toList, "distra\xc3\xaddo".toList),
       ("idiota".toList, "pessoa confusa".toList)] "burroido".toList =
      some "distra\xc3\xaddoido".toList ∧
    has_substr (toLower "distra\xc3\xaddoido".toList) "doido".toList = true ∧
    censor_filter dictionary "bobocaido".toList = some "engra\xc3\xa7adoido".toList ∧
    has_substr (toLower "engra\xc3\xa7adoido".toList) "doido".toList = true := by
  refine ⟨by decide, by decide, by decide, by decide, by decide⟩

theorem size_sub_small (a b : Nat) (h : b ≤ a) : size_sub a b = a - b := by
  unfold size_sub
  rw [if_pos h]

theorem size_to_int_small (v : Nat) (h : v < 2147483648) : size_to_int v = (v : Int) := by
  unfold size_to_int
  rw [if_pos h]

theorem fgets_at_eof (n : Int) (h : n ≠ 1) : fgets n [] = none := by
  unfold fgets
  by_cases h0 : n ≤ 0
  · rw [if_pos h0]
  · rw [if_neg h0, if_neg h, if_pos rfl]

theorem runcmd_loop_silent (mem : List Char) (out_len : Nat) (max_lines : Int) (fuel : Nat)
    (h1 : 2 ≤ out_len) (h2 : out_len < 2147483648) :
    runcmd_loop out_len max_lines (fuel + 1) mem [] 0 0 = some mem := by
  have hn : size_to_int (size_sub out_len 0) = (out_len : Int) := by
    rw [size_sub_small out_len 0 (by omega), Nat.sub_zero, size_to_int_small out_len h2]
  unfold runcmd_loop
  rw [hn, fgets_at_eof _ (by omega)]

theorem runcmd_silent (cmd mem errstr : List Char) (out_len : Nat) (max_lines : Int)
    (h1 : 2 ≤ out_len) (h2 : out_len < 2147483648) :
    runcmd (some cmd) (some mem) out_len max_lines (some []) errstr = some (0, some mem) := by
  unfold runcmd
  simp only [List.length_nil, Nat.zero_add]
  rw [runcmd_loop_silent mem out_len max_lines 0 h1 h2]
  rfl

theorem runcmd_one_line (cmd errstr tail : List Char) (a b c : Char) :
    runcmd (some cmd) (some (a :: b :: c :: tail)) 4096 1 (some "0\n".toList) errstr =
      some (0, some ('0' :: '\n' :: NUL :: tail)) := by
  have hn : size_to_int (size_sub 4096 0) = 4096 := by decide
  have hf : fgets 4096 "0\n".toList = some ("0\n".toList, []) := by decide
  have hl : ("0\n".toList).length + 1 = 1 + 1 + 1 := rfl
  unfold runcmd
  simp only [hl]
  unfold runcmd_loop
  simp only [hn, hf]
  rfl

theorem cstr_stale (tail : List Char) :
    cstr ('0' :: '\n' :: NUL :: tail) = "0\n".toList := by
  have h0 : ('0' != NUL) = true := by decide
  have h1 : ('\n' != NUL) = true := by decide
  have h2 : (NUL != NUL) = false := by decide
  simp only [cstr, List.takeWhile_cons, h0, h1, h2, if_true]
  rfl

/-- C19, failing input: as in `check_proc_status`, a 4096-byte buffer of
zeros is filled by a first `run_cmd` whose command prints "0\n"; a second
`run_cmd` on the same buffer, whose command prints nothing, returns 0 and
leaves the buffer as it was, so `out` is the stale string "0\n" and not the
empty string. -/
theorem C19_silent_command_leaves_stale_output :
    runcmd (some "cat /proc/sys/vm/overcommit_memory".toList)
      (some (NUL :: NUL :: NUL :: List.replicate 4093 NUL)) 4096 1 (some "0\n".toList) [] =
      some (0, some ('0' :: '\n' :: NUL :: List.replicate 4093 NUL)) ∧
    runcmd (some "dmesg | egrep -i 'oom|panic|oops' | tail -n 10".toList)
      (some ('0' :: '\n' :: NUL :: List.replicate 4093 NUL)) 4096 10 (some []) [] =
      some (0, some ('0' :: '\n' :: NUL :: List.replicate 4093 NUL)) ∧
    cstr ('0' :: '\n' :: NUL :: List.replicate 4093 NUL) = "0\n".toList ∧
    cstr ('0' :: '\n' :: NUL :: List.replicate 4093 NUL) ≠ [] := by
  refine ⟨runcmd_one_line _ _ _ _ _ _, runcmd_silent _ _ _ 4096 10 (by decide) (by decide),
    ?_, ?_⟩
  · exact cstr_stale _
  · rw [cstr_stale]
    decide

/-! ## `neural_read` after `neural_write` -/

/-- C21: for every command text `w` (whether or not its copy from the caller
succeeds) and every random word, a `neural_read` after `neural_write(w)`
returns the same value, delivers the same bytes to the caller and leaves the
same driver state as a `neural_read` with the same word and no preceding
write; more generally the outcome of a read does not depend on what
`neural_buffer` held. The write does store its text in `neural_buffer`
(shown for "abc"), the read overwrites it first. -/
theorem C21_neural_read_independent_of_writes (st : neural_state) (w : List Char)
    (copy_ok : Bool) (noise : Int) (len : Nat) (umem : List Char) (fault : Nat) :
    (neural_read (neural_write st w copy_ok).2 noise len umem fault).1 =
      (neural_read st noise len umem fault).1 ∧
    (neural_read (neural_write st w copy_ok).2 noise len umem fault).2.2 =
      (neural_read st noise len umem fault).2.2 ∧
    (neural_read (neural_write st w copy_ok).2 noise len umem fault).2.1 =
      (neural_read st noise len umem fault).2.1 ∧
    (∀ buf : List Char,
      neural_read ⟨st.neural_mutex, buf⟩ noise len umem fault =
        neural_read st noise len umem fault) ∧
    (neural_write neural_loaded "abc".toList true).2.neural_buffer =
      "[neural_driver] Comando neural processado: abc\n".toList := by
  have hm : (neural_write st w copy_ok).2.neural_mutex = st.neural_mutex := by
    unfold neural_write
    cases copy_ok <;> rfl
  have hg : ∀ s1 s2 : neural_state, s1.neural_mutex = s2.neural_mutex →
      neural_read s1 noise len umem fault = neural_read s2 noise len umem fault := by
    intro s1 s2 h
    unfold neural_read
    simp only [h]
  have h := hg (neural_write st w copy_ok).2 st hm
  refine ⟨by rw [h], by rw [h], by rw [h], fun buf => hg _ _ rfl, by decide⟩

/-! ## Termination of `Censor::filter` -/

theorem begins_with_length (s word : List Char) (h : begins_with s word = true) :
    word.length ≤ s.length := by
  unfold begins_with at h
  rw [beq_iff_eq] at h
  have := congrArg List.length h
  rw [List.length_take] at this
  omega

theorem find_at_bounds (word : List Char) (hw : word ≠ []) : ∀ (s : List Char) (i p : Nat),
    find_at s word i = some p → i ≤ p ∧ p + word.length ≤ i + s.length := by
  intro s
  induction s with
  | nil =>
    intro i p h
    simp [find_at, hw] at h
  | cons c cs ih =>
    intro i p h
    unfold find_at at h
    split at h
    · rename_i hb
      have hl := begins_with_length _ _ hb
      simp only [Option.some.injEq] at h
      subst h
      exact ⟨Nat.le_refl _, by omega⟩
    · have := ih (i + 1) p h
      simp only [List.length_cons]
      omega

theorem string_find_bounds (s word : List Char) (pos p : Nat) (hw : word ≠ [])
    (h : string_find s word pos = some p) : pos ≤ p ∧ p + word.length ≤ s.length := by
  unfold string_find at h
  split at h
  · rename_i hle
    have := find_at_bounds word hw _ _ _ h
    rw [List.length_drop] at this
    omega
  · cases h

theorem replace_step_measure (word replacement output : List Char) (pos p : Nat)
    (hw : word ≠ []) (h : string_find (toLower output) word pos = some p) :
    (string_replace output p word.length replacement).length - (p + replacement.length) <
      output.length - pos := by
  have hb := string_find_bounds _ _ _ _ hw h
  have hl : 0 < word.length := List.length_pos.mpr hw
  simp only [toLower, List.length_map] at hb
  simp only [string_replace, List.length_append, List.length_take, List.length_drop]
  omega

theorem replace_loop_terminates (word replacement : List Char) (hw : word ≠ []) :
    ∀ (fuel : Nat) (output : List Char) (pos : Nat), output.length - pos < fuel →
      (replace_loop word replacement fuel output pos).isSome = true := by
  intro fuel
  induction fuel with
  | zero => intro output pos h; omega
  | succ fuel ih =>
    intro output pos h
    unfold replace_loop
    cases hf : string_find (toLower output) word pos with
    | none => rfl
    | some p =>
      simp only
      apply ih
      have := replace_step_measure word replacement output pos p hw hf
      omega

theorem replace_loop_more_fuel (word replacement : List Char) :
    ∀ (fuel extra : Nat) (output : List Char) (pos : Nat) (r : List Char),
      replace_loop word replacement fuel output pos = some r →
      replace_loop word replacement (fuel + extra) output pos = some r := by
  intro fuel
  induction fuel with
  | zero => intro extra output pos r h; simp [replace_loop] at h
  | succ fuel ih =>
    intro extra output pos r h
    rw [Nat.add_right_comm]
    unfold replace_loop at h ⊢
    cases hf : string_find (toLower output) word pos with
    | none =>
      rw [hf] at h
      exact h
    | some p =>
      rw [hf] at h
      simp only at h ⊢
      exact ih extra _ _ r h

theorem censor_entry_terminates (word replacement output : List Char) (hw : word ≠ []) :
    (censor_entry word replacement output).isSome = true := by
  unfold censor_entry
  exact replace_loop_terminates word replacement hw _ _ _ (by omega)

theorem censor_filter_terminates (order : List (List Char × List Char))
    (hw : ∀ e ∈ order, e.1 ≠ []) : ∀ input : List Char,
    (censor_filter order input).isSome = true := by
  induction order with
  | nil => intro input; rfl
  | cons e rest ih =>
    intro input
    obtain ⟨word, replacement⟩ := e
    have h1 := censor_entry_terminates word replacement input
      (hw (word, replacement) (List.mem_cons_self _ _))
    obtain ⟨out, hout⟩ := Option.isSome_iff_exists.mp h1
    unfold censor_filter
    rw [hout]
    exact ih (fun e he => hw e (List.mem_cons_of_mem _ he)) out

theorem dictionary_words_nonempty : ∀ e ∈ dictionary, e.1 ≠ [] := by decide

/-- C22: for every input string and every order in which the five
dictionary entries are visited, `Censor::filter` returns: the loop of each
entry ends within the `output.length + 1` iterations allowed (and more
iterations give the same result), because at every iteration the part of the
string after the new search position is strictly shorter than the part after
the old one; the whole string may grow meanwhile ("idiota", 6 bytes, becomes
"pessoa confusa", 14 bytes). -/
theorem C22_filter_terminates (order : List (List Char × List Char)) (input : List Char)
    (h : List.Perm order dictionary) :
    (∃ out, censor_filter order input = some out) ∧
    (∀ word replacement, (word, replacement) ∈ order → ∀ (output : List Char) (pos p : Nat),
      string_find (toLower output) word pos = some p →
      (string_replace output p word.length replacement).length - (p + replacement.length) <
        output.length - pos) ∧
    (∀ word replacement, (word, replacement) ∈ order → ∀ (output : List Char) (extra : Nat),
      replace_loop word replacement (output.length + 1 + extra) output 0 =
        censor_entry word replacement output) ∧
    (censor_filter dictionary "idiota".toList = some "pessoa confusa".toList ∧
      "idiota".toList.length < "pessoa confusa".toList.length) := by
  have hw : ∀ e ∈ order, e.1 ≠ [] := fun e he =>
    dictionary_words_nonempty e ((List.Perm.mem_iff h).mp he)
  refine ⟨Option.isSome_iff_exists.mp (censor_filter_terminates order hw input), ?_, ?_,
    by decide, by decide⟩
  · intro word replacement hmem output pos p hf
    exact replace_step_measure word replacement output pos p (hw _ hmem) hf
  · intro word replacement hmem output extra
    obtain ⟨r, hr⟩ := Option.isSome_iff_exists.mp
      (censor_entry_terminates word replacement output (hw _ hmem))
    rw [hr]
    unfold censor_entry at hr
    exact replace_loop_more_fuel word replacement _ extra output 0 r hr

/-- Witness for C22: the reverse of the initializer list's order, on a
sentence with two dictionary words. -/
theorem C22_filter_terminates_witness :
    List.Perm (dictionary.reverse) dictionary ∧
    ∃ out, censor_filter (dictionary.reverse) "um idiota burro".toList = some out :=
  ⟨List.reverse_perm _, (C22_filter_terminates (dictionary.reverse) "um idiota burro".toList
    (List.reverse_perm _)).1⟩

/-! ## Length of the eyes line -/

theorem fmt_u_length_pos (n : Nat) : 1 ≤ (fmt_u n).length := by
  rw [fmt_u, toDigits_eq_dec]
  exact List.length_pos.mpr (dec_ne_nil n)

theorem eyes_format_generated_length (sb : Bool) (rnd rnd2 : Nat) (now : Int) :
    13 ≤ (eyes_format (generate_sample sb rnd rnd2 now)).length ∧
    (eyes_format (generate_sample sb rnd rnd2 now)).length ≤ 37 := by
  have ht : to_u64 now / 1000000 < 10 ^ (13 + 1) := by
    have : to_u64 now < 18446744073709551616 := by
      unfold to_u64
      omega
    omega
  have u1 := fmt_u_length 13 _ ht
  have u2 := fmt_u_length 3 (to_u16 (rnd % 1921)) (by unfold to_u16; omega)
  have u3 := fmt_u_length 3 (to_u16 ((rnd >>> 16) % 1081)) (by unfold to_u16; omega)
  have u4 := fmt_u_length 4 (to_u16 (rnd % 10001)) (by unfold to_u16; omega)
  have l1 := fmt_u_length_pos (to_u64 now / 1000000)
  have l2 := fmt_u_length_pos (to_u16 (rnd % 1921))
  have l3 := fmt_u_length_pos (to_u16 ((rnd >>> 16) % 1081))
  have l4 := fmt_u_length_pos (to_u16 (rnd % 10001))
  have hb : ∀ b : Bool, 4 ≤ (if b then "true" else "false").toList.length ∧
      (if b then "true" else "false").toList.length ≤ 5 := by
    intro b; cases b <;> decide
  have l5 := hb (if sb then decide (rnd2 % 100 < 5) else false)
  simp only [eyes_format, generate_sample, List.length_append, List.length_singleton]
  omega

/-- C23: for every sample `generate_sample` can produce (any random words,
either setting of `simulate_blink`) and every 64-bit timestamp, the line
`eyes_read` formats is between 13 and 37 bytes long, so `snprintf` into the
256-byte `eyes_buffer` keeps it whole, and an `eyes_read` with a caller
length of at least 37 never returns `-EINVAL`. -/
theorem C23_eyes_line_length (st : eyes_state) (rnd rnd2 : Nat) (now : Int) (len : Nat)
    (umem : List Char) (fault : Nat) :
    13 ≤ (eyes_format (generate_sample st.simulate_blink rnd rnd2 now)).length ∧
    (eyes_format (generate_sample st.simulate_blink rnd rnd2 now)).length ≤ 37 ∧
    snprintf EYES_BUF_SZ (eyes_format (generate_sample st.simulate_blink rnd rnd2 now)) =
      eyes_format (generate_sample st.simulate_blink rnd rnd2 now) ∧
    (37 ≤ len → (eyes_read st rnd rnd2 now len umem fault).1 ≠ -EINVAL) := by
  obtain ⟨hlo, hhi⟩ := eyes_format_generated_length st.simulate_blink rnd rnd2 now
  have hs : snprintf EYES_BUF_SZ (eyes_format (generate_sample st.simulate_blink rnd rnd2 now)) =
      eyes_format (generate_sample st.simulate_blink rnd rnd2 now) := by
    unfold snprintf EYES_BUF_SZ
    exact List.take_of_length_le (by omega)
  refine ⟨hlo, hhi, hs, ?_⟩
  intro hlen
  have hnot : ¬ len < (eyes_format (generate_sample st.simulate_blink rnd rnd2 now)).length := by
    omega
  simp only [eyes_read, eyes_read_sample, hs, strlen, hnot, if_false]
  split
  · simp only [EFAULT, EINVAL]
    decide
  · simp only [EINVAL]
    omega

/-- Witness for C23: both bounds are attained, 13 bytes for the all-zero
sample with a blink and 37 bytes for a sample with four, four and five digits
at the largest timestamp; read with a caller length of 37. -/
theorem C23_eyes_line_length_witness :
    (eyes_format (generate_sample true 0 0 0)).length = 13 ∧
    (eyes_format (generate_sample true 65536552 50 (-1))).length = 37 ∧
    (eyes_read eyes_loaded 65536552 50 (-1) 37 [] 0).1 ≠ -EINVAL :=
  ⟨by decide, by decide,
   (C23_eyes_line_length eyes_loaded 65536552 50 (-1) 37 [] 0).2.2.2 (by decide)⟩

end LinusNeural
